import Mathlib

/-!
Verification of the DocFX YAML → MDX converter
(`scripts/process-docfx-output.js`) of the cocos2d-mono-docs repository.

The JavaScript source is shallowly embedded: strings are `List Char`
pipelines, every regular-expression pass of the source is translated into a
structural left-to-right scanner with the same semantics, JS truthiness of
optional string fields is modelled by `Option String` together with the
`truthyS`/`jsOrD` helpers, and the file-processing driver is modelled as a
pure fold over a directory listing.
-/

set_option maxRecDepth 8000

namespace DocFx

/-! ### Characters used by the sanitizers, given by code point -/

def quoteC : Char := Char.ofNat 34

def aposC : Char := Char.ofNat 39

def bslashC : Char := Char.ofNat 92

def lbraceC : Char := Char.ofNat 123

def rbraceC : Char := Char.ofNat 125

/-- The JavaScript `\s` character class (also the set trimmed by
`String.prototype.trim`): tab, LF, VT, FF, CR, space, NBSP, Ogham space,
the U+2000–U+200A range, LS, PS, NNBSP, MMSP, ideographic space, BOM. -/
def isJsSpace (c : Char) : Bool :=
  let n := c.toNat
  n == 9 || n == 10 || n == 11 || n == 12 || n == 13 || n == 32 ||
  n == 160 || n == 0x1680 ||
  (decide (0x2000 ≤ n) && decide (n ≤ 0x200a)) ||
  n == 0x2028 || n == 0x2029 || n == 0x202f || n == 0x205f ||
  n == 0x3000 || n == 0xfeff

/-! ### Generic text-rewriting scanners

Each `replace` call of the source is one of the following scanners.
-/

/-- Models `replace(/c/g, f c)` for a character-indexed replacement `f`:
every character is replaced by a (possibly empty) character list. -/
def repChar (f : Char → List Char) : List Char → List Char
  | [] => []
  | c :: r => f c ++ repChar f r

/-- Left-to-right scanner for the pattern `<[^>]+>`.
State `none`: not inside a candidate match; state `some buf`: a `'<'` has
been seen and `buf` holds the (non-`'>'`) characters read since.  On the
closing `'>'` with a non-empty interior, the whole match is replaced by
`emit buf`; `'<'` immediately followed by `'>'` is not a match (the `+`
requires at least one interior character); a `'<'` never followed by `'>'`
is literal text. -/
def angleGo (emit : List Char → List Char) : Option (List Char) → List Char → List Char
  | none, [] => []
  | some buf, [] => '<' :: buf
  | none, c :: r => if c = '<' then angleGo emit (some []) r else c :: angleGo emit none r
  | some buf, c :: r =>
    if c = '>' then
      if buf = [] then '<' :: '>' :: angleGo emit none r
      else emit buf ++ angleGo emit none r
    else angleGo emit (some (buf ++ [c])) r

/-- Does the text contain a (leftmost-match) occurrence of `<[^>]+>`?
Same scanning discipline as `angleGo`; the state records whether a `'<'`
is pending and whether at least one interior character has been read. -/
def hasMatchGo : Option Bool → List Char → Bool
  | _, [] => false
  | none, c :: r => if c = '<' then hasMatchGo (some false) r else hasMatchGo none r
  | some b, c :: r => if c = '>' then (b || hasMatchGo none r) else hasMatchGo (some true) r

def hasMatchB (l : List Char) : Bool := hasMatchGo none l

/-- Models `replace(/\r\n/g, e)` — each CRLF pair becomes the character `e`. -/
def crlfRepl (e : Char) : List Char → List Char
  | [] => []
  | [c] => [c]
  | c :: d :: r =>
    if c = '\r' ∧ d = '\n' then e :: crlfRepl e r
    else c :: crlfRepl e (d :: r)

/-- Models `replace(/p+/g, e)` — every maximal run of characters satisfying `p`
becomes the single character `e`.  The Boolean state records whether the
previous character was part of a run. -/
def collapseGo (p : Char → Bool) (e : Char) : Bool → List Char → List Char
  | _, [] => []
  | inRun, c :: r =>
    if p c then
      if inRun then collapseGo p e true r else e :: collapseGo p e true r
    else c :: collapseGo p e false r

/-- Remove the maximal suffix of characters satisfying `p`
(the `-+$` half of a trim). -/
def trimRightP (p : Char → Bool) : List Char → List Char
  | [] => []
  | c :: r =>
    let t := trimRightP p r
    if t.isEmpty then (if p c then [] else [c]) else c :: t

/-- JavaScript `String.prototype.trim`. -/
def jsTrim (l : List Char) : List Char :=
  List.dropWhile isJsSpace (trimRightP isJsSpace l)

/-! ### The three sanitizers and the id cleaner -/

def fAmp (c : Char) : List Char := if c = '&' then "&amp;".data else [c]

def fQuot (c : Char) : List Char := if c = quoteC then "&quot;".data else [c]

def fApos (c : Char) : List Char := if c = aposC then "&#39;".data else [c]

def fBslash (c : Char) : List Char := if c = bslashC then [] else [c]

def fBraceDrop (c : Char) : List Char := if c = lbraceC ∨ c = rbraceC then [] else [c]

def fLbrace (c : Char) : List Char := if c = lbraceC then "&#123;".data else [c]

def fRbrace (c : Char) : List Char := if c = rbraceC then "&#125;".data else [c]

def fNl (c : Char) : List Char := if c = '\n' then [' '] else [c]

def fTab (c : Char) : List Char := if c = '\t' then "    ".data else [c]

/-- Replacement text of `replace(/<([^>]+)>/g, "&lt;$1&gt;")`. -/
def mdxEmit (buf : List Char) : List Char := "&lt;".data ++ buf ++ "&gt;".data

/-- Replacement text of `replace(/<[^>]+>/g, "")`. -/
def dropEmit (_ : List Char) : List Char := ([] : List Char)

def mdxAngle (l : List Char) : List Char := angleGo mdxEmit none l

def stripAngle (l : List Char) : List Char := angleGo dropEmit none l

def wsCollapse (l : List Char) : List Char := collapseGo isJsSpace ' ' false l

/-- Character pipeline of `sanitizeForMdx` (source lines 459–474), pass by
pass: escape `<([^>]+)>` to entities, escape `{` and `}`, replace CRLF and
LF by spaces, collapse whitespace runs, trim. -/
def sanitizeForMdxData (l : List Char) : List Char :=
  jsTrim (wsCollapse (repChar fNl (crlfRepl ' '
    (repChar fRbrace (repChar fLbrace (mdxAngle l))))))

/-- Source function `sanitizeForMdx` (source lines 459–474); `if (!text) return ""` is the
empty-string guard. -/
def sanitizeForMdx (text : String) : String :=
  if text = "" then "" else String.mk (sanitizeForMdxData text.data)

/-- Character pipeline of `sanitizeForJsx` (source lines 476–498), pass by
pass: escape `&`, delete `<[^>]+>` segments, delete backslashes, escape
double and single quotes, delete braces, replace CRLF and LF by spaces,
collapse whitespace runs, trim. -/
def sanitizeForJsxData (l : List Char) : List Char :=
  jsTrim (wsCollapse (repChar fNl (crlfRepl ' '
    (repChar fBraceDrop (repChar fApos (repChar fQuot
      (repChar fBslash (stripAngle (repChar fAmp l)))))))))

/-- Source function `sanitizeForJsx` (source lines 476–498). -/
def sanitizeForJsx (text : String) : String :=
  if text = "" then "" else String.mk (sanitizeForJsxData text.data)

/-- Source function `sanitizeCodeBlock` (source lines 500–504): CRLF → LF, tab → four
spaces, trim. -/
def sanitizeCodeBlock (code : String) : String :=
  if code = "" then "" else String.mk (jsTrim (repChar fTab (crlfRepl '\n' code.data)))

/-- JS character class `[a-zA-Z0-9._-]` of `sanitizeId`. -/
def isIdChar (c : Char) : Bool :=
  let n := c.toNat
  (decide (97 ≤ n) && decide (n ≤ 122)) ||
  (decide (65 ≤ n) && decide (n ≤ 90)) ||
  (decide (48 ≤ n) && decide (n ≤ 57)) ||
  c == '.' || c == '_' || c == '-'

def fNonId (c : Char) : List Char := if isIdChar c then [c] else ['-']

/-- ASCII lower-casing (the inputs fed to `toLowerCase` here are ASCII). -/
def asciiLower (c : Char) : Char :=
  if 65 ≤ c.toNat ∧ c.toNat ≤ 90 then Char.ofNat (c.toNat + 32) else c

/-- Source function `sanitizeId` (source lines 506–521): drop `<[^>]+>`, map characters
outside `[a-zA-Z0-9._-]` to `-`, strip leading/trailing dash runs, collapse
dash runs, lower-case. -/
def sanitizeId (id : String) : String :=
  if id = "" then "unknown"
  else String.mk ((collapseGo (fun c => c == '-') '-' false
    (List.dropWhile (fun c => c == '-') (trimRightP (fun c => c == '-')
      (repChar fNonId (stripAngle id.data))))).map asciiLower)

/-! ### Substring utilities (for stating "the output contains …") -/

def isPrefixOfL : List Char → List Char → Bool
  | [], _ => true
  | _ :: _, [] => false
  | a :: as, b :: bs => a == b && isPrefixOfL as bs

def containsL (pat : List Char) : List Char → Bool
  | [] => pat.isEmpty
  | c :: r => isPrefixOfL pat (c :: r) || containsL pat r

def strContains (s pat : String) : Bool := containsL pat.data s.data

/-- JS `str.replace(pat, repl)` with a plain-string pattern: replace the
first occurrence only (the text is returned unchanged when `pat` does not
occur). -/
def replaceFirstL (pat repl : List Char) : List Char → List Char
  | [] => if pat.isEmpty then repl else []
  | c :: r =>
    if isPrefixOfL pat (c :: r) then repl ++ (c :: r).drop pat.length
    else c :: replaceFirstL pat repl r

def jsReplaceFirst (s pat repl : String) : String :=
  String.mk (replaceFirstL pat.data repl.data s.data)

def strEndsWith (s pat : String) : Bool :=
  isPrefixOfL pat.data.reverse s.data.reverse

end DocFx

namespace DocFx

/-! ### Data model

Optional YAML fields are `Option String`; JS truthiness of a string field
(`undefined`, `null` and `""` are falsy) is `truthyS`.  List-valued fields
use `[]` for an absent list: every source guard on them is
`xs && xs.length > 0`, which treats an absent list and an empty list the
same way.
-/

/-- JS truthiness of an optional string: `some s` with `s ≠ ""`. -/
def truthyS : Option String → Option String
  | some s => if s = "" then none else some s
  | none => none

/-- Models `o || d` for an optional string `o` and a fallback `d`. -/
def jsOrD (o : Option String) (d : String) : String := (truthyS o).getD d

/-- Passing a possibly-`undefined` string to a sanitizer: the sanitizers
return `""` for every falsy argument. -/
def optStr (o : Option String) : String := o.getD ""

def sanitizeForJsxOpt (o : Option String) : String := sanitizeForJsx (optStr o)

def sanitizeForMdxOpt (o : Option String) : String := sanitizeForMdx (optStr o)

structure ParamInfo where
  id : Option String
  name : Option String
  type : Option String
  description : Option String
deriving DecidableEq

structure ReturnInfo where
  type : Option String
  description : Option String
deriving DecidableEq

/-- The `syntax` object of a DocFX item; the `return` field is `ret` here
(`syntax` and `return` cannot be used as Lean field names). -/
structure SyntaxInfo where
  parameters : List ParamInfo
  ret : Option ReturnInfo
deriving DecidableEq

/-- One DocFX item (an element of `items` or `references`).  The
`namespace` field is `ns` and the `syntax` field is `syn`; `exampleCode`
is the source's `example`. -/
structure DocItem where
  uid : Option String
  name : Option String
  type : Option String
  ns : Option String
  summary : Option String
  inheritance : List String
  implements : List String
  children : List String
  syn : Option SyntaxInfo
  modifiers : List String
  exampleCode : Option String
deriving DecidableEq

/-- A parsed YAML document: `items` plus cross-file `references`. -/
structure DocCollection where
  items : List DocItem
  references : List DocItem
deriving DecidableEq

/-- A DocItem with every field absent (base for concrete test items). -/
def emptyItem : DocItem :=
  { uid := none, name := none, type := none, ns := none, summary := none,
    inheritance := [], implements := [], children := [], syn := none,
    modifiers := [], exampleCode := none }

/-! ### Child grouping (source lines 433–457) -/

/-- Resolution of one child uid: search `references` first, `items`
second (`find` returns the first element with a matching `uid`). -/
def resolveChild (data : DocCollection) (childRef : String) : Option DocItem :=
  match data.references.find? (fun ref => ref.uid == some childRef) with
  | some it => some it
  | none => data.items.find? (fun it => it.uid == some childRef)

/-- Models `childItem.type || "Member"`. -/
def kindOf (it : DocItem) : String := jsOrD it.type "Member"

/-- Ordered grouping map, modelling a JS object literal: keys in insertion
order (as `Object.keys` enumerates them), each with its bucket. -/
def pushGroup : List (String × List DocItem) → String → DocItem → List (String × List DocItem)
  | [], k, it => [(k, [it])]
  | (g, l) :: rest, k, it =>
    if g = k then (g, l ++ [it]) :: rest else (g, l) :: pushGroup rest k it

def findGroup (gs : List (String × List DocItem)) (k : String) : Option (List DocItem) :=
  (gs.find? (fun g => g.1 == k)).map (fun g => g.2)

def groupChildrenGo (data : DocCollection) : List String → List (String × List DocItem) → List (String × List DocItem)
  | [], gs => gs
  | c :: cs, gs =>
    groupChildrenGo data cs
      (match resolveChild data c with
       | none => gs
       | some it => pushGroup gs (kindOf it) it)

/-- Source function `groupChildren` (source lines 433–457): resolve each uid (references
first, then items), drop unresolved uids, bucket by `type || "Member"`. -/
def groupChildren (children : List String) (data : DocCollection) : List (String × List DocItem) :=
  groupChildrenGo data children []

/-! ### Component renderers -/

/-- Source function `buildAttribute` (source lines 116–119). -/
def buildAttribute (name : String) (value : Option String) : String :=
  let sanitized := sanitizeForJsxOpt value
  if sanitized = "" then "" else " " ++ name ++ "=\"" ++ sanitized ++ "\""

/-- The type resolution of `generatePropertyComponent`:
`(syntax && syntax.return && syntax.return.type) || type || "object"`. -/
def resolvedType (propertyItem : DocItem) : String :=
  jsOrD (propertyItem.syn.bind (fun sx => sx.ret.bind (fun r => r.type)))
    (jsOrD propertyItem.type "object")

/-- Source function `generatePropertyComponent` (source lines 322–336). -/
def generatePropertyComponent (propertyItem : DocItem) (standalone : Bool := true) : String :=
  let name := sanitizeForJsxOpt propertyItem.name
  let type := sanitizeForJsx (resolvedType propertyItem)
  let nameAttr := if name = "" then "" else " name=\"" ++ name ++ "\""
  let typeAttr := if type = "" then "" else " type=\"" ++ type ++ "\""
  let descriptionAttr := buildAttribute "description" propertyItem.summary
  "<ApiProperty" ++ nameAttr ++ typeAttr ++ descriptionAttr ++ " />\n\n"

/-- Source function `generateEventComponent` (source lines 338–346). -/
def generateEventComponent (eventItem : DocItem) : String :=
  let name := sanitizeForJsxOpt eventItem.name
  let type := sanitizeForJsx (jsOrD eventItem.type "event")
  let nameAttr := if name = "" then "" else " name=\"" ++ name ++ "\""
  let typeAttr := if type = "" then "" else " type=\"" ++ type ++ "\""
  let descriptionAttr := buildAttribute "description" eventItem.summary
  "<ApiProperty" ++ nameAttr ++ typeAttr ++ descriptionAttr ++ " />\n\n"

/-- Source function `generateMethodSignature` (source lines 401–431).  When `name` is
absent, the JS `signature += methodItem.name` concatenates the literal
text `"undefined"`. -/
def generateMethodSignature (methodItem : DocItem) : String :=
  match methodItem.syn with
  | none => sanitizeForJsxOpt methodItem.name
  | some sx =>
    let mods := if methodItem.modifiers ≠ [] then String.intercalate " " methodItem.modifiers ++ " " else ""
    let retPart :=
      match sx.ret with
      | some r => match truthyS r.type with
        | some t => t ++ " "
        | none => ""
      | none => ""
    let namePart := match methodItem.name with
      | some n => n
      | none => "undefined"
    let params :=
      if sx.parameters ≠ [] then
        String.intercalate ", " (sx.parameters.map (fun param =>
          jsOrD param.type "object" ++ " " ++ jsOrD param.id (jsOrD param.name "param")))
      else ""
    sanitizeForJsx (mods ++ retPart ++ namePart ++ "(" ++ params ++ ")")

/-- Source function `generateMethodComponent` (source lines 269–320). -/
def generateMethodComponent (methodItem : DocItem) (standalone : Bool := true) : String :=
  let name := sanitizeForJsxOpt methodItem.name
  let signature := generateMethodSignature methodItem
  let nameAttr := if name = "" then "" else " name=\"" ++ name ++ "\""
  let signatureAttr := if signature = "" then "" else " signature=\"" ++ signature ++ "\""
  let descriptionAttr := buildAttribute "description" methodItem.summary
  let paramsBlock :=
    match methodItem.syn with
    | some sx =>
      if sx.parameters ≠ [] then
        "  <ApiParameters>\n" ++
        String.join (sx.parameters.map (fun param =>
          let paramName := sanitizeForJsx (jsOrD param.id (optStr param.name))
          let paramType := sanitizeForJsx (jsOrD param.type "object")
          let pNameAttr := if paramName = "" then "" else " name=\"" ++ paramName ++ "\""
          let pTypeAttr := if paramType = "" then "" else " type=\"" ++ paramType ++ "\""
          let pDescriptionAttr := buildAttribute "description" param.description
          "    <ApiParameter" ++ pNameAttr ++ pTypeAttr ++ pDescriptionAttr ++ " />\n")) ++
        "  </ApiParameters>\n\n"
      else ""
    | none => ""
  let returnsBlock :=
    match methodItem.syn with
    | some sx =>
      match sx.ret with
      | some r =>
        let returnType := sanitizeForJsx (jsOrD r.type "void")
        let typeAttr := if returnType = "" then "" else " type=\"" ++ returnType ++ "\""
        let rDescriptionAttr := buildAttribute "description" r.description
        if returnType ≠ "void" ∨ truthyS r.description ≠ none then
          "  <ApiReturns" ++ typeAttr ++ rDescriptionAttr ++ " />\n\n"
        else ""
      | none => ""
    | none => ""
  let exampleBlock :=
    match truthyS methodItem.exampleCode with
    | some ex =>
      "  <ApiExample>\n  ```csharp\n  " ++ sanitizeCodeBlock ex ++ "\n  ```\n  </ApiExample>\n\n"
    | none => ""
  "<ApiMethod" ++ nameAttr ++ signatureAttr ++ descriptionAttr ++ ">\n\n" ++
    paramsBlock ++ returnsBlock ++ exampleBlock ++ "</ApiMethod>\n\n"

/-- Source function `generateGenericMemberComponent` (source lines 389–399). -/
def generateGenericMemberComponent (member : DocItem) : String :=
  let name := sanitizeForMdx (jsOrD member.name "Unknown")
  let description := sanitizeForMdxOpt member.summary
  "### " ++ name ++ "\n\n" ++ (if description ≠ "" then description ++ "\n\n" else "")

/-- One of the five fixed member sections of the class renderer: the
source pattern `groupedChildren.K && groupedChildren.K.length > 0`. -/
def memberSection (gs : List (String × List DocItem)) (key header : String)
    (render : DocItem → String) : String :=
  match findGroup gs key with
  | some l => if l ≠ [] then header ++ String.join (l.map render) else ""
  | none => ""

/-- Source function `generateClassComponent` (source lines 121–205). -/
def generateClassComponent (classItem : DocItem) (data : DocCollection) : String :=
  let name := sanitizeForJsxOpt classItem.name
  let nsStr := sanitizeForJsx (optStr classItem.ns)
  let nameAttr := if name = "" then "" else " name=\"" ++ name ++ "\""
  let namespaceAttr := if nsStr = "" then "" else " namespace=\"" ++ nsStr ++ "\""
  let descriptionAttr := buildAttribute "description" classItem.summary
  let inh :=
    if classItem.inheritance ≠ [] then
      "**Inheritance:** " ++ String.intercalate " → " (classItem.inheritance.map sanitizeForMdx) ++ "\n\n"
    else ""
  let impl :=
    if classItem.implements ≠ [] then
      "**Implements:** " ++ String.intercalate ", " (classItem.implements.map sanitizeForMdx) ++ "\n\n"
    else ""
  let childrenBlock :=
    if classItem.children ≠ [] then
      let groupedChildren := groupChildren classItem.children data
      memberSection groupedChildren "Constructor" "## Constructors\n\n" (fun c => generateMethodComponent c false) ++
      memberSection groupedChildren "Field" "## Fields\n\n" (fun f => generatePropertyComponent f false) ++
      memberSection groupedChildren "Property" "## Properties\n\n" (fun p => generatePropertyComponent p false) ++
      memberSection groupedChildren "Method" "## Methods\n\n" (fun m => generateMethodComponent m false) ++
      memberSection groupedChildren "Event" "## Events\n\n" generateEventComponent ++
      String.join ((groupedChildren.filter (fun g =>
        !(["Constructor", "Property", "Method", "Field", "Event"].contains g.1))).map
        (fun g => "## " ++ g.1 ++ "s\n\n" ++ String.join (g.2.map generateGenericMemberComponent)))
    else ""
  "<ApiClass" ++ nameAttr ++ namespaceAttr ++ descriptionAttr ++ ">\n\n" ++
    inh ++ impl ++ childrenBlock ++ "\n</ApiClass>"

/-- Source function `generateStructComponent` (source lines 207–238): the `ApiClass` tag
with a `**Type:** Struct` line; every grouped kind is rendered in
insertion order (no inheritance/implements lines, no fixed order). -/
def generateStructComponent (structItem : DocItem) (data : DocCollection) : String :=
  let name := sanitizeForJsxOpt structItem.name
  let nsStr := sanitizeForJsx (optStr structItem.ns)
  let nameAttr := if name = "" then "" else " name=\"" ++ name ++ "\""
  let namespaceAttr := if nsStr = "" then "" else " namespace=\"" ++ nsStr ++ "\""
  let descriptionAttr := buildAttribute "description" structItem.summary
  let childrenBlock :=
    if structItem.children ≠ [] then
      let groupedChildren := groupChildren structItem.children data
      String.join (groupedChildren.map (fun g =>
        "## " ++ g.1 ++ "s\n\n" ++
        String.join (g.2.map (fun member =>
          if g.1 = "Method" then generateMethodComponent member false
          else if g.1 = "Property" ∨ g.1 = "Field" then generatePropertyComponent member false
          else generateGenericMemberComponent member))))
    else ""
  "<ApiClass" ++ nameAttr ++ namespaceAttr ++ descriptionAttr ++ ">\n\n" ++
    "**Type:** Struct\n\n" ++ childrenBlock ++ "\n</ApiClass>"

/-- Source function `generateEnumComponent` (source lines 240–267). -/
def generateEnumComponent (enumItem : DocItem) (data : DocCollection) : String :=
  let name := sanitizeForJsxOpt enumItem.name
  let nsStr := sanitizeForJsx (optStr enumItem.ns)
  let nameAttr := if name = "" then "" else " name=\"" ++ name ++ "\""
  let namespaceAttr := if nsStr = "" then "" else " namespace=\"" ++ nsStr ++ "\""
  let descriptionAttr := buildAttribute "description" enumItem.summary
  let valuesBlock :=
    if enumItem.children ≠ [] then
      "## Values\n\n" ++
      (match findGroup (groupChildren enumItem.children data) "Field" with
       | some fields =>
         String.join (fields.map (fun field =>
           let fieldName := sanitizeForJsxOpt field.name
           let fNameAttr := if fieldName = "" then "" else " name=\"" ++ fieldName ++ "\""
           let fDescriptionAttr := buildAttribute "description" field.summary
           "<ApiProperty" ++ fNameAttr ++ " type=\"enum value\"" ++ fDescriptionAttr ++ " />\n\n"))
       | none => "")
    else ""
  "<ApiClass" ++ nameAttr ++ namespaceAttr ++ descriptionAttr ++ ">\n\n" ++
    "**Type:** Enum\n\n" ++ valuesBlock ++ "\n</ApiClass>"

/-- Source function `generateGenericContent` (source lines 348–361). -/
def generateGenericContent (item : DocItem) : String :=
  let name := sanitizeForMdx (jsOrD item.name "Unknown")
  let type := sanitizeForMdx (jsOrD item.type "Unknown")
  let description := sanitizeForMdxOpt item.summary
  "# " ++ name ++ "\n\n**Type:** " ++ type ++ "\n\n" ++
    (if description ≠ "" then description ++ "\n\n" else "")

/-- Source function `generateNamespaceContent` (source lines 363–387). -/
def generateNamespaceContent (namespaceItem : DocItem) (data : DocCollection) : String :=
  let name := sanitizeForMdxOpt namespaceItem.name
  let description := sanitizeForMdxOpt namespaceItem.summary
  "# " ++ name ++ "\n\n" ++
    (if description ≠ "" then description ++ "\n\n" else "") ++
    (if data.items.length > 1 then
      "## Classes and Types\n\n" ++
      String.join ((data.items.drop 1).map (fun item =>
        if truthyS item.name ≠ none ∧ truthyS item.type ≠ none then
          "- **" ++ sanitizeForMdxOpt item.name ++ "** (" ++ sanitizeForMdxOpt item.type ++
            ") - " ++ sanitizeForMdxOpt item.summary ++ "\n"
        else ""))
    else "")

/-- Source function `convertYamlToMdx` (source lines 74–114).  The `items = []` case is
unreachable: the only caller checks `items.length > 0` first. -/
def convertYamlToMdx (data : DocCollection) (filename : String) : String :=
  match data.items with
  | [] => ""
  | item :: _ =>
    let safeTitle := sanitizeForMdx (jsOrD item.name (jsReplaceFirst filename ".md" ""))
    let safeId := sanitizeId (jsOrD item.uid (jsOrD item.name (jsReplaceFirst filename ".md" "")))
    let header :=
      "---\n" ++
      "id: \"" ++ safeId ++ "\"\n" ++
      "title: \"" ++ safeTitle ++ "\"\n" ++
      "sidebar_label: \"" ++ safeTitle ++ "\"\n" ++
      "hide_table_of_contents: false\n" ++
      "---\n\n" ++
      "import \x7b ApiClass, ApiMethod, ApiProperty, ApiParameters, ApiParameter, ApiReturns, ApiExample \x7d from \"@site/src/components/ApiComponents\";\n\n"
    let body :=
      if item.type = some "Class" then generateClassComponent item data
      else if item.type = some "Method" then generateMethodComponent item
      else if item.type = some "Property" then generatePropertyComponent item
      else if item.type = some "Namespace" then generateNamespaceContent item data
      else if item.type = some "Enum" then generateEnumComponent item data
      else if item.type = some "Struct" then generateStructComponent item data
      else generateGenericContent item
    header ++ body

/-- JS character class `[a-zA-Z0-9]` of `createFallbackContent`. -/
def isAlnumC (c : Char) : Bool :=
  let n := c.toNat
  (decide (97 ≤ n) && decide (n ≤ 122)) ||
  (decide (65 ≤ n) && decide (n ≤ 90)) ||
  (decide (48 ≤ n) && decide (n ≤ 57))

/-- Source function `createFallbackContent` (source lines 541–557).  Defined in the source
but never called by any code path. -/
def createFallbackContent (filename : String) : String :=
  let base := jsReplaceFirst filename ".yml" ""
  let name := String.mk (base.data.map (fun c => if isAlnumC c then c else ' '))
  "---\nid: \"" ++ sanitizeId base ++ "\"\ntitle: \"" ++ name ++
    "\"\nsidebar_label: \"" ++ name ++
    "\"\nhide_table_of_contents: false\n---\n\n# " ++ name ++
    "\n\nThis API documentation is currently being processed. Please check back later for complete documentation.\n\n**Note:** This page was automatically generated from DocFX metadata.\n"

end DocFx

namespace DocFx

/-! ### The file-processing driver (source lines 5–72 and 559–565)

The filesystem is abstracted to a directory listing.  Each listed file
carries its processing outcome as data: `ok d` means `yaml.load` returns
the collection `d` and the subsequent write succeeds; `raises` means some
step of `processYamlFile` throws (a YAML parse error or an `fs` write
error).  Everything the script does to the world — which target files it
writes, which source files it deletes, the two counters, its exit code and
the missing-directory diagnostic — is collected in `RunState`/`RunOutcome`.
(Console progress logging and the warning-only `validateMdxContent` call
do not affect any of these observables and are not modelled.)
-/

inductive YamlFile where
  | ok (d : DocCollection)
  | raises
deriving DecidableEq

structure RunState where
  outputs : List (String × String)
  deleted : List String
  processed : Nat
  skipped : Nat
deriving DecidableEq

def initState : RunState := { outputs := [], deleted := [], processed := 0, skipped := 0 }

/-- Source function `processYamlFile` (source lines 45–72): `.error` models a thrown
exception; `.ok none` is the "no items found" early return (no write, no
delete); `.ok (some (target, content))` is a successful conversion. -/
def processYamlFileRes (filename : String) (fc : YamlFile) : Except Unit (Option (String × String)) :=
  match fc with
  | .raises => .error ()
  | .ok d =>
    if d.items = [] then .ok none
    else
      let targetFilename := jsReplaceFirst filename ".yml" ".md"
      .ok (some (targetFilename, convertYamlToMdx d targetFilename))

/-- One iteration of the `files.forEach` loop (source lines 24–38). -/
def runStep (st : RunState) (file : String × YamlFile) : RunState :=
  if file.1 = "toc.yml" ∨ file.1 = ".manifest" then
    { st with skipped := st.skipped + 1 }
  else
    match processYamlFileRes file.1 file.2 with
    | .error _ => { st with skipped := st.skipped + 1 }
    | .ok none => { st with processed := st.processed + 1 }
    | .ok (some (tgt, content)) =>
      { st with outputs := st.outputs ++ [(tgt, content)],
                deleted := st.deleted ++ [file.1],
                processed := st.processed + 1 }

def runFiles : RunState → List (String × YamlFile) → RunState
  | st, [] => st
  | st, f :: fs => runFiles (runStep st f) fs

structure FakeFS where
  dirExists : Bool
  files : List (String × YamlFile)
deriving DecidableEq

structure RunOutcome where
  exitCode : Nat
  log : List String
  final : RunState
deriving DecidableEq

/-- Source function `processDocFxFiles` plus the top-level `try/catch` (source lines 5–43
and 559–565).  When the API docs directory is missing the function logs
and returns normally, so the process exits with status 0. -/
def processDocFxFiles (fs : FakeFS) : RunOutcome :=
  if fs.dirExists = false then
    { exitCode := 0,
      log := ["No API docs directory found. Skipping processing."],
      final := initState }
  else
    { exitCode := 0,
      log := [],
      final := runFiles initState (fs.files.filter (fun f => strEndsWith f.1 ".yml")) }

/-! ### Spec-side renderers (for the refinement claims)

These two definitions follow the words of spec §4.3, not the source: the
class/struct renderer "emits an opening tag carrying name, namespace, and
sanitized summary as attributes; an inheritance line if `inheritance`
non-empty (joined with a directional separator); an implements line if
`implements` non-empty; then, in this fixed order, sections for
Constructors, Fields, Properties, Methods, Events (each only if that
kind's group is non-empty), followed by any remaining child kinds as
generic member lists; closes with the closing tag."
-/

/-- Modelled from the spec: one member section, present exactly when that
kind's group is non-empty. -/
def specSection (groups : List (String × List DocItem)) (kind header : String)
    (render : DocItem → String) : String :=
  let bucket := (findGroup groups kind).getD []
  if bucket ≠ [] then header ++ String.join (bucket.map render) else ""

/-- Modelled from the spec (§4.3), for Class items. -/
def specClassRender (item : DocItem) (data : DocCollection) : String :=
  let name := sanitizeForJsxOpt item.name
  let nsStr := sanitizeForJsx (optStr item.ns)
  let openTag :=
    "<ApiClass" ++ (if name = "" then "" else " name=\"" ++ name ++ "\"") ++
    (if nsStr = "" then "" else " namespace=\"" ++ nsStr ++ "\"") ++
    buildAttribute "description" item.summary ++ ">\n\n"
  let inhLine :=
    if item.inheritance ≠ [] then
      "**Inheritance:** " ++ String.intercalate " → " (item.inheritance.map sanitizeForMdx) ++ "\n\n"
    else ""
  let implLine :=
    if item.implements ≠ [] then
      "**Implements:** " ++ String.intercalate ", " (item.implements.map sanitizeForMdx) ++ "\n\n"
    else ""
  let groups := groupChildren item.children data
  let fixedSections :=
    specSection groups "Constructor" "## Constructors\n\n" (fun c => generateMethodComponent c false) ++
    specSection groups "Field" "## Fields\n\n" (fun f => generatePropertyComponent f false) ++
    specSection groups "Property" "## Properties\n\n" (fun p => generatePropertyComponent p false) ++
    specSection groups "Method" "## Methods\n\n" (fun m => generateMethodComponent m false) ++
    specSection groups "Event" "## Events\n\n" generateEventComponent
  let remaining :=
    String.join ((groups.filter (fun g =>
      !(["Constructor", "Property", "Method", "Field", "Event"].contains g.1))).map
      (fun g => "## " ++ g.1 ++ "s\n\n" ++ String.join (g.2.map generateGenericMemberComponent)))
  openTag ++ inhLine ++ implLine ++ fixedSections ++ remaining ++ "\n</ApiClass>"

/-- The struct contract as amended: same opening/closing tag, a
`**Type:** Struct` line, no inheritance or implements lines, member
sections in order of first appearance of each kind among the children
(methods via the method renderer, properties and fields via the property
renderer, every other kind as a generic member list). -/
def specStructRenderAmended (item : DocItem) (data : DocCollection) : String :=
  let name := sanitizeForJsxOpt item.name
  let nsStr := sanitizeForJsx (optStr item.ns)
  let openTag :=
    "<ApiClass" ++ (if name = "" then "" else " name=\"" ++ name ++ "\"") ++
    (if nsStr = "" then "" else " namespace=\"" ++ nsStr ++ "\"") ++
    buildAttribute "description" item.summary ++ ">\n\n"
  let groups := groupChildren item.children data
  let sections :=
    String.join (groups.map (fun g =>
      "## " ++ g.1 ++ "s\n\n" ++
      String.join (g.2.map (fun member =>
        if g.1 = "Method" then generateMethodComponent member false
        else if g.1 = "Property" ∨ g.1 = "Field" then generatePropertyComponent member false
        else generateGenericMemberComponent member))))
  openTag ++ "**Type:** Struct\n\n" ++ sections ++ "\n</ApiClass>"

end DocFx

namespace DocFx

/-! ### Auxiliary predicates used in the theorem statements -/

/-- Text whose whitespace is normalised: every whitespace character is a
plain space and no two whitespace characters are adjacent.  This is the
shape `replace(/\s+/g, " ")` leaves behind. -/
def normWs : List Char → Bool
  | [] => true
  | [c] => !isJsSpace c || c == ' '
  | c :: d :: r =>
    (if isJsSpace c then c == ' ' && !isJsSpace d else true) && normWs (d :: r)

def headNotWs : List Char → Bool
  | [] => true
  | c :: _ => !isJsSpace c

/-- The text contains an unescaped `<identifier>` pattern: a substring
made of `'<'`, one or more non-`'>'` characters, and `'>'`
(the shape named by spec §8, "Prose sanitization never leaves an
unescaped `<identifier>` pattern in output"). -/
def containsAngleSub (l : List Char) : Prop :=
  ∃ a m b, l = a ++ '<' :: (m ++ '>' :: b) ∧ m ≠ [] ∧ '>' ∉ m

/-! ### Concrete fixtures for the scenario claims -/

/-- Primary item of the spec §8 round-trip scenario. -/
def itemFoo : DocItem := { emptyItem with
  uid := some "T"
  name := some "Foo"
  type := some "Class"
  ns := some "NS"
  summary := some "desc"
  children := ["T.Bar"] }

/-- Reference item of the spec §8 round-trip scenario. -/
def refBar : DocItem := { emptyItem with
  uid := some "T.Bar"
  name := some "Bar"
  type := some "Method" }

/-- Collection of the spec §8 round-trip scenario. -/
def collFoo : DocCollection := { items := [itemFoo], references := [refBar] }

/-- A Property item with no `syntax` field (C4 scenario). -/
def propNoSyntaxItem : DocItem := { emptyItem with
  name := some "X"
  type := some "Property" }

/-- A Property item with neither `syntax` nor item-level `type`. -/
def propBareItem : DocItem := { emptyItem with name := some "X" }

/-- A Struct item with a non-empty inheritance chain (C7 counterexample). -/
def structWithInheritance : DocItem := { emptyItem with
  name := some "S"
  type := some "Struct"
  inheritance := ["Base"] }

def emptyColl : DocCollection := { items := [], references := [] }

/-- Three method children used by the C8 order-preservation instance. -/
def methodA : DocItem := { emptyItem with uid := some "a", name := some "A", type := some "Method" }

def methodB : DocItem := { emptyItem with uid := some "b", name := some "B", type := some "Method" }

def methodC : DocItem := { emptyItem with uid := some "c", name := some "C", type := some "Method" }

def collABC : DocCollection := { items := [], references := [methodA, methodB, methodC] }

/-- A collection that does not know the uid "missing-uid" (C9 scenario). -/
def collOther : DocCollection := { items := [itemFoo], references := [refBar] }

/-- A parseable single-class document used by the driver fixtures. -/
def docOk : DocCollection := { items := [itemFoo], references := [refBar] }

/-- Driver fixture: one file whose processing throws (C2 counterexample). -/
def fsOneBroken : FakeFS := { dirExists := true, files := [("broken.yml", .raises)] }

/-- Driver fixture: a missing source directory (C3). -/
def fsMissing : FakeFS := { dirExists := false, files := [("a.yml", .ok docOk)] }

/-- Driver fixture for the C5 witness: one good file. -/
def fsOneGood : FakeFS := { dirExists := true, files := [("t.yml", .ok docOk)] }

/-- Driver fixture for the C2 amended witness. -/
def fsMixed : FakeFS := { dirExists := true, files := [("t.yml", .ok docOk), ("broken.yml", .raises)] }

end DocFx

namespace DocFx

/-! ## Unfolding equations for the scanners -/

theorem hm_none_lt (r : List Char) : hasMatchGo none ('<' :: r) = hasMatchGo (some false) r := by
  simp [hasMatchGo]

theorem hm_none_cons {c : Char} (hc : c ≠ '<') (r : List Char) :
    hasMatchGo none (c :: r) = hasMatchGo none r := by
  simp [hasMatchGo, hc]

theorem hm_some_gt (b : Bool) (r : List Char) :
    hasMatchGo (some b) ('>' :: r) = (b || hasMatchGo none r) := by
  simp [hasMatchGo]

theorem hm_some_cons {c : Char} (hc : c ≠ '>') (b : Bool) (r : List Char) :
    hasMatchGo (some b) (c :: r) = hasMatchGo (some true) r := by
  simp [hasMatchGo, hc]

theorem angleGo_none_lt (emit : List Char → List Char) (r : List Char) :
    angleGo emit none ('<' :: r) = angleGo emit (some []) r := by
  simp [angleGo]

theorem angleGo_none_cons (emit : List Char → List Char) {c : Char} (hc : c ≠ '<') (r : List Char) :
    angleGo emit none (c :: r) = c :: angleGo emit none r := by
  simp [angleGo, hc]

theorem angleGo_some_gt_nil (emit : List Char → List Char) (r : List Char) :
    angleGo emit (some []) ('>' :: r) = '<' :: '>' :: angleGo emit none r := by
  simp [angleGo]

theorem angleGo_some_gt (emit : List Char → List Char) {buf : List Char} (hb : buf ≠ [])
    (r : List Char) :
    angleGo emit (some buf) ('>' :: r) = emit buf ++ angleGo emit none r := by
  simp [angleGo, hb]

theorem angleGo_some_cons (emit : List Char → List Char) {c : Char} (hc : c ≠ '>')
    (buf r : List Char) :
    angleGo emit (some buf) (c :: r) = angleGo emit (some (buf ++ [c])) r := by
  simp [angleGo, hc]

theorem crlfRepl_pair (e : Char) (r : List Char) :
    crlfRepl e ('\r' :: '\n' :: r) = e :: crlfRepl e r := by
  simp [crlfRepl]

theorem crlfRepl_cons2 (e : Char) {c d : Char} (h : ¬(c = '\r' ∧ d = '\n')) (r : List Char) :
    crlfRepl e (c :: d :: r) = c :: crlfRepl e (d :: r) := by
  simp [crlfRepl, h]

theorem collapseGo_pos (p : Char → Bool) (e : Char) {c : Char} (hc : p c = true)
    (b : Bool) (r : List Char) :
    collapseGo p e b (c :: r) =
      (if b then collapseGo p e true r else e :: collapseGo p e true r) := by
  simp [collapseGo, hc]

theorem collapseGo_neg (p : Char → Bool) (e : Char) {c : Char} (hc : p c = false)
    (b : Bool) (r : List Char) :
    collapseGo p e b (c :: r) = c :: collapseGo p e false r := by
  simp [collapseGo, hc]

/-! ## Basic lemmas about `repChar` and `hasMatchGo` -/

theorem repChar_eq_self (f : Char → List Char) :
    ∀ l : List Char, (∀ c ∈ l, f c = [c]) → repChar f l = l
  | [], _ => rfl
  | c :: r, h => by
    have hc : f c = [c] := h c (List.mem_cons_self c r)
    have hr := repChar_eq_self f r (fun d hd => h d (List.mem_cons_of_mem c hd))
    simp [repChar, hc, hr]

theorem mem_repChar {a : Char} (f : Char → List Char) :
    ∀ l : List Char, a ∈ repChar f l → ∃ c ∈ l, a ∈ f c
  | [], h => by simp [repChar] at h
  | c :: r, h => by
    rcases List.mem_append.mp h with h1 | h2
    · exact ⟨c, List.mem_cons_self c r, h1⟩
    · obtain ⟨d, hd, ha⟩ := mem_repChar f r h2
      exact ⟨d, List.mem_cons_of_mem c hd, ha⟩

theorem hm_nil (st : Option Bool) : hasMatchGo st [] = false := by
  cases st <;> rfl

theorem hm_no_gt : ∀ (st : Option Bool) (m : List Char), '>' ∉ m → hasMatchGo st m = false
  | st, [], _ => hm_nil st
  | st, c :: r, h => by
    have hc : c ≠ '>' := fun e => h (e ▸ List.mem_cons_self c r)
    have hr : '>' ∉ r := fun e => h (List.mem_cons_of_mem c e)
    cases st with
    | none =>
      by_cases hlt : c = '<'
      · subst hlt; rw [hm_none_lt]; exact hm_no_gt (some false) r hr
      · rw [hm_none_cons hlt]; exact hm_no_gt none r hr
    | some b =>
      rw [hm_some_cons hc]; exact hm_no_gt (some true) r hr

theorem hm_true_no_gt : ∀ m : List Char, hasMatchGo (some true) m = false → '>' ∉ m
  | [], _ => List.not_mem_nil _
  | c :: r, h => by
    by_cases hc : c = '>'
    · subst hc; rw [hm_some_gt] at h; simp at h
    · rw [hm_some_cons hc] at h
      have hr := hm_true_no_gt r h
      intro hmem
      rcases List.mem_cons.mp hmem with e | e
      · exact hc e.symm
      · exact hr e

theorem hm_skip_no_lt :
    ∀ (a x : List Char), '<' ∉ a → hasMatchGo none (a ++ x) = hasMatchGo none x
  | [], _, _ => rfl
  | c :: a, x, h => by
    have hc : c ≠ '<' := fun e => h (e ▸ List.mem_cons_self c a)
    have ha : '<' ∉ a := fun e => h (List.mem_cons_of_mem c e)
    rw [List.cons_append, hm_none_cons hc]
    exact hm_skip_no_lt a x ha

theorem hm_prefix :
    ∀ (a b : List Char) (st : Option Bool),
      hasMatchGo st (a ++ b) = false → hasMatchGo st a = false
  | [], _, st, _ => hm_nil st
  | c :: a, b, st, h => by
    cases st with
    | none =>
      by_cases hc : c = '<'
      · subst hc
        rw [List.cons_append, hm_none_lt] at h
        rw [hm_none_lt]
        exact hm_prefix a b (some false) h
      · rw [List.cons_append, hm_none_cons hc] at h
        rw [hm_none_cons hc]
        exact hm_prefix a b none h
    | some bb =>
      by_cases hc : c = '>'
      · subst hc
        rw [List.cons_append, hm_some_gt] at h
        rw [hm_some_gt]
        rcases Bool.or_eq_false_iff.mp h with ⟨hb, hx⟩
        rw [hb]
        simpa using hm_prefix a b none hx
      · rw [List.cons_append, hm_some_cons hc] at h
        rw [hm_some_cons hc]
        exact hm_prefix a b (some true) h

end DocFx

namespace DocFx

/-! ## The angle scanner leaves match-free text unchanged -/

theorem angleGo_eq_self (emit : List Char → List Char) :
    ∀ l : List Char,
      (hasMatchGo none l = false → angleGo emit none l = l) ∧
      (∀ buf, hasMatchGo (some true) l = false → angleGo emit (some buf) l = '<' :: (buf ++ l)) ∧
      (hasMatchGo (some false) l = false → angleGo emit (some []) l = '<' :: l)
  | [] =>
    ⟨fun _ => rfl, fun buf _ => by simp [angleGo], fun _ => rfl⟩
  | c :: r => by
    obtain ⟨ih1, ih2, ih3⟩ := angleGo_eq_self emit r
    refine ⟨?_, ?_, ?_⟩
    · intro h
      by_cases hc : c = '<'
      · subst hc
        rw [hm_none_lt] at h
        rw [angleGo_none_lt, ih3 h]
      · rw [hm_none_cons hc] at h
        rw [angleGo_none_cons emit hc, ih1 h]
    · intro buf h
      by_cases hc : c = '>'
      · subst hc; rw [hm_some_gt] at h; simp at h
      · rw [hm_some_cons hc] at h
        rw [angleGo_some_cons emit hc, ih2 (buf ++ [c]) h]
        simp
    · intro h
      by_cases hc : c = '>'
      · subst hc
        rw [hm_some_gt] at h
        simp only [Bool.false_or] at h
        rw [angleGo_some_gt_nil, ih1 h]
      · rw [hm_some_cons hc] at h
        rw [angleGo_some_cons emit hc]
        have := ih2 ([] ++ [c]) h
        simpa using this

theorem mdxAngle_eq_self {l : List Char} (h : hasMatchB l = false) : mdxAngle l = l :=
  (angleGo_eq_self mdxEmit l).1 h

theorem stripAngle_eq_self {l : List Char} (h : hasMatchB l = false) : stripAngle l = l :=
  (angleGo_eq_self dropEmit l).1 h

/-! ## The deleting angle scanner produces match-free text -/

theorem stripAngle_nm :
    ∀ l : List Char,
      hasMatchGo none (angleGo dropEmit none l) = false ∧
      (∀ buf, '>' ∉ buf → hasMatchGo none (angleGo dropEmit (some buf) l) = false)
  | [] => by
    refine ⟨rfl, fun buf h => ?_⟩
    show hasMatchGo none ('<' :: buf) = false
    rw [hm_none_lt]
    exact hm_no_gt (some false) buf h
  | c :: r => by
    obtain ⟨ih1, ih2⟩ := stripAngle_nm r
    constructor
    · by_cases hc : c = '<'
      · subst hc
        rw [angleGo_none_lt]
        exact ih2 [] (List.not_mem_nil _)
      · rw [angleGo_none_cons dropEmit hc]
        by_cases hlt : c = '<'
        · exact absurd hlt hc
        · rw [hm_none_cons hlt]; exact ih1
    · intro buf h
      by_cases hc : c = '>'
      · subst hc
        by_cases hb : buf = []
        · subst hb
          rw [angleGo_some_gt_nil, hm_none_lt, hm_some_gt]
          simpa using ih1
        · rw [angleGo_some_gt dropEmit hb]
          simpa [dropEmit] using ih1
      · have hb : '>' ∉ buf ++ [c] := by
          intro hmem
          rcases List.mem_append.mp hmem with hh | hh
          · exact h hh
          · exact hc (List.mem_singleton.mp hh).symm
        rw [angleGo_some_cons dropEmit hc]
        exact ih2 (buf ++ [c]) hb

theorem stripAngle_no_match (l : List Char) : hasMatchB (stripAngle l) = false :=
  (stripAngle_nm l).1

/-! ## Match-freedom is preserved by the later passes -/

theorem repChar_no_gt (f : Char → List Char) (h1 : f '<' = ['<'])
    (h3 : ∀ c, c ≠ '<' → c ≠ '>' → '<' ∉ f c ∧ '>' ∉ f c)
    {l : List Char} (h : '>' ∉ l) : '>' ∉ repChar f l := by
  intro hmem
  obtain ⟨c, hc, ha⟩ := mem_repChar f l hmem
  have hcgt : c ≠ '>' := fun e => h (e ▸ hc)
  by_cases hlt : c = '<'
  · subst hlt; rw [h1] at ha; simp at ha
  · exact (h3 c hlt hcgt).2 ha

theorem repChar_hm (f : Char → List Char) (h1 : f '<' = ['<']) (h2 : f '>' = ['>'])
    (h3 : ∀ c, c ≠ '<' → c ≠ '>' → '<' ∉ f c ∧ '>' ∉ f c) :
    ∀ l : List Char,
      (hasMatchGo none l = false → hasMatchGo none (repChar f l) = false) ∧
      (hasMatchGo (some false) l = false → hasMatchGo (some false) (repChar f l) = false)
  | [] => ⟨fun _ => rfl, fun _ => rfl⟩
  | c :: r => by
    obtain ⟨ih1, ih2⟩ := repChar_hm f h1 h2 h3 r
    constructor
    · intro h
      by_cases hlt : c = '<'
      · subst hlt
        rw [hm_none_lt] at h
        show hasMatchGo none (f '<' ++ repChar f r) = false
        rw [h1, List.singleton_append, hm_none_lt]
        exact ih2 h
      · by_cases hgt : c = '>'
        · subst hgt
          rw [hm_none_cons (by decide)] at h
          show hasMatchGo none (f '>' ++ repChar f r) = false
          rw [h2, List.singleton_append, hm_none_cons (by decide)]
          exact ih1 h
        · rw [hm_none_cons hlt] at h
          show hasMatchGo none (f c ++ repChar f r) = false
          rw [hm_skip_no_lt (f c) (repChar f r) (h3 c hlt hgt).1]
          exact ih1 h
    · intro h
      by_cases hgt : c = '>'
      · subst hgt
        rw [hm_some_gt] at h
        simp only [Bool.false_or] at h
        show hasMatchGo (some false) (f '>' ++ repChar f r) = false
        rw [h2, List.singleton_append, hm_some_gt]
        simpa using ih1 h
      · rw [hm_some_cons hgt] at h
        have hr : '>' ∉ r := hm_true_no_gt r h
        have hcr : '>' ∉ (c :: r : List Char) := by
          intro hmem
          rcases List.mem_cons.mp hmem with e | e
          · exact hgt e.symm
          · exact hr e
        exact hm_no_gt _ _ (repChar_no_gt f h1 h3 hcr)

theorem mem_crlfRepl {a e : Char} : ∀ l : List Char, a ∈ crlfRepl e l → a ∈ l ∨ a = e
  | [], h => by simp [crlfRepl] at h
  | [c], h => Or.inl (by simpa [crlfRepl] using h)
  | c :: d :: r, h => by
    by_cases hp : c = '\r' ∧ d = '\n'
    · obtain ⟨hc, hd⟩ := hp
      subst hc; subst hd
      rw [crlfRepl_pair] at h
      rcases List.mem_cons.mp h with e1 | e1
      · exact Or.inr e1
      · rcases mem_crlfRepl r e1 with h2 | h2
        · exact Or.inl (List.mem_cons_of_mem _ (List.mem_cons_of_mem _ h2))
        · exact Or.inr h2
    · rw [crlfRepl_cons2 e hp] at h
      rcases List.mem_cons.mp h with e1 | e1
      · exact Or.inl (e1 ▸ List.mem_cons_self _ _)
      · rcases mem_crlfRepl (d :: r) e1 with h2 | h2
        · exact Or.inl (List.mem_cons_of_mem _ h2)
        · exact Or.inr h2

end DocFx

namespace DocFx

theorem crlf_hm :
    ∀ l : List Char,
      (hasMatchGo none l = false → hasMatchGo none (crlfRepl ' ' l) = false) ∧
      (hasMatchGo (some false) l = false → hasMatchGo (some false) (crlfRepl ' ' l) = false)
  | [] => ⟨fun _ => rfl, fun _ => rfl⟩
  | [c] => by
    constructor
    · intro h; simpa [crlfRepl] using h
    · intro h; simpa [crlfRepl] using h
  | c :: d :: r => by
    obtain ⟨ihr1, _⟩ := crlf_hm r
    obtain ⟨ihd1, ihd2⟩ := crlf_hm (d :: r)
    by_cases hp : c = '\r' ∧ d = '\n'
    · obtain ⟨hc, hd⟩ := hp
      subst hc; subst hd
      constructor
      · intro h
        rw [hm_none_cons (by decide), hm_none_cons (by decide)] at h
        rw [crlfRepl_pair, hm_none_cons (by decide)]
        exact ihr1 h
      · intro h
        rw [hm_some_cons (by decide)] at h
        have hgt := hm_true_no_gt _ h
        have hout : '>' ∉ crlfRepl ' ' ('\r' :: '\n' :: r) := by
          intro hmem
          rcases mem_crlfRepl _ hmem with h2 | h2
          · rcases List.mem_cons.mp h2 with e1 | e1
            · exact absurd e1 (by decide)
            · exact hgt e1
          · exact absurd h2 (by decide)
        exact hm_no_gt _ _ hout
    · constructor
      · intro h
        by_cases hc : c = '<'
        · subst hc
          rw [hm_none_lt] at h
          rw [crlfRepl_cons2 ' ' hp, hm_none_lt]
          exact ihd2 h
        · rw [hm_none_cons hc] at h
          rw [crlfRepl_cons2 ' ' hp, hm_none_cons hc]
          exact ihd1 h
      · intro h
        by_cases hc : c = '>'
        · subst hc
          rw [hm_some_gt] at h
          simp only [Bool.false_or] at h
          rw [crlfRepl_cons2 ' ' hp, hm_some_gt]
          simpa using ihd1 h
        · rw [hm_some_cons hc] at h
          have hgt := hm_true_no_gt _ h
          have hout : '>' ∉ crlfRepl ' ' (c :: d :: r) := by
            intro hmem
            rcases mem_crlfRepl _ hmem with h2 | h2
            · rcases List.mem_cons.mp h2 with e1 | e1
              · exact hc e1.symm
              · exact hgt e1
            · exact absurd h2 (by decide)
          exact hm_no_gt _ _ hout

theorem mem_collapseGo {a e : Char} (p : Char → Bool) :
    ∀ (b : Bool) (l : List Char), a ∈ collapseGo p e b l → a ∈ l ∨ a = e
  | _, [], h => by simp [collapseGo] at h
  | b, c :: r, h => by
    by_cases hc : p c = true
    · rw [collapseGo_pos p e hc] at h
      cases b with
      | true =>
        rw [if_pos rfl] at h
        rcases mem_collapseGo p true r h with h2 | h2
        · exact Or.inl (List.mem_cons_of_mem c h2)
        · exact Or.inr h2
      | false =>
        rw [if_neg (by simp)] at h
        rcases List.mem_cons.mp h with e1 | e1
        · exact Or.inr e1
        · rcases mem_collapseGo p true r e1 with h2 | h2
          · exact Or.inl (List.mem_cons_of_mem c h2)
          · exact Or.inr h2
    · rw [collapseGo_neg p e (Bool.not_eq_true _ ▸ hc : p c = false)] at h
      rcases List.mem_cons.mp h with e1 | e1
      · exact Or.inl (e1 ▸ List.mem_cons_self _ _)
      · rcases mem_collapseGo p false r e1 with h2 | h2
        · exact Or.inl (List.mem_cons_of_mem c h2)
        · exact Or.inr h2

theorem collapse_hm :
    ∀ (l : List Char) (b : Bool),
      (hasMatchGo none l = false → hasMatchGo none (collapseGo isJsSpace ' ' b l) = false) ∧
      (hasMatchGo (some false) l = false →
        hasMatchGo (some false) (collapseGo isJsSpace ' ' b l) = false)
  | [], _ => ⟨fun _ => rfl, fun _ => rfl⟩
  | c :: r, b => by
    have iht := collapse_hm r true
    have ihf := collapse_hm r false
    by_cases hs : isJsSpace c = true
    · have hclt : c ≠ '<' := by
        intro e; subst e; exact absurd hs (by decide)
      have hcgt : c ≠ '>' := by
        intro e; subst e; exact absurd hs (by decide)
      constructor
      · intro h
        rw [hm_none_cons hclt] at h
        rw [collapseGo_pos _ _ hs]
        cases b with
        | true => rw [if_pos rfl]; exact iht.1 h
        | false =>
          rw [if_neg (by simp)]
          rw [hm_none_cons (by decide)]
          exact iht.1 h
      · intro h
        rw [hm_some_cons hcgt] at h
        have hgt := hm_true_no_gt _ h
        have hout : '>' ∉ collapseGo isJsSpace ' ' b (c :: r) := by
          intro hmem
          rcases mem_collapseGo isJsSpace b (c :: r) hmem with h2 | h2
          · rcases List.mem_cons.mp h2 with e1 | e1
            · exact hcgt e1.symm
            · exact hgt e1
          · exact absurd h2 (by decide)
        exact hm_no_gt _ _ hout
    · have hs' : isJsSpace c = false := Bool.not_eq_true _ ▸ hs
      constructor
      · intro h
        by_cases hc : c = '<'
        · subst hc
          rw [hm_none_lt] at h
          rw [collapseGo_neg _ _ hs', hm_none_lt]
          exact ihf.2 h
        · rw [hm_none_cons hc] at h
          rw [collapseGo_neg _ _ hs', hm_none_cons hc]
          exact ihf.1 h
      · intro h
        by_cases hc : c = '>'
        · subst hc
          rw [hm_some_gt] at h
          simp only [Bool.false_or] at h
          rw [collapseGo_neg _ _ hs', hm_some_gt]
          simpa using ihf.1 h
        · rw [hm_some_cons hc] at h
          have hgt := hm_true_no_gt _ h
          have hout : '>' ∉ collapseGo isJsSpace ' ' b (c :: r) := by
            intro hmem
            rcases mem_collapseGo isJsSpace b (c :: r) hmem with h2 | h2
            · rcases List.mem_cons.mp h2 with e1 | e1
              · exact hc e1.symm
              · exact hgt e1
            · exact absurd h2 (by decide)
          exact hm_no_gt _ _ hout

end DocFx

namespace DocFx

/-! ## Trim lemmas -/

theorem mem_dropWhileP {a : α} (p : α → Bool) :
    ∀ l : List α, a ∈ l.dropWhile p → a ∈ l
  | c :: r, h => by
    by_cases hc : p c = true
    · rw [List.dropWhile_cons_of_pos hc] at h
      exact List.mem_cons_of_mem c (mem_dropWhileP p r h)
    · rw [List.dropWhile_cons_of_neg hc] at h
      exact h
  | [], h => by simp at h

theorem dropWhileP_idem (p : α → Bool) :
    ∀ l : List α, (l.dropWhile p).dropWhile p = l.dropWhile p
  | [] => rfl
  | c :: r => by
    by_cases hc : p c = true
    · rw [List.dropWhile_cons_of_pos hc]
      exact dropWhileP_idem p r
    · rw [List.dropWhile_cons_of_neg hc, List.dropWhile_cons_of_neg hc]

theorem trimRightP_prefix (p : Char → Bool) :
    ∀ l : List Char, ∃ b, l = trimRightP p l ++ b ∧ ∀ c ∈ b, p c = true
  | [] => ⟨[], rfl, by simp⟩
  | c :: r => by
    obtain ⟨b, hb, hall⟩ := trimRightP_prefix p r
    by_cases ht : trimRightP p r = []
    · rw [ht, List.nil_append] at hb
      by_cases hc : p c = true
      · refine ⟨c :: b, ?_, ?_⟩
        · show c :: r = trimRightP p (c :: r) ++ c :: b
          simp only [trimRightP, ht]
          simp [hc, hb]
        · intro d hd
          rcases List.mem_cons.mp hd with e | e
          · exact e ▸ hc
          · exact hall d e
      · refine ⟨b, ?_, hall⟩
        show c :: r = trimRightP p (c :: r) ++ b
        simp only [trimRightP, ht]
        simp [hc, hb]
    · refine ⟨b, ?_, hall⟩
      show c :: r = trimRightP p (c :: r) ++ b
      simp only [trimRightP]
      rw [if_neg (by simpa [List.isEmpty_iff] using ht)]
      simpa using hb

theorem mem_trimRightP {a : Char} (p : Char → Bool) (l : List Char)
    (h : a ∈ trimRightP p l) : a ∈ l := by
  obtain ⟨b, hb, _⟩ := trimRightP_prefix p l
  rw [hb]
  exact List.mem_append.mpr (Or.inl h)

theorem trimRightP_nil_all (p : Char → Bool) :
    ∀ l : List Char, trimRightP p l = [] → ∀ c ∈ l, p c = true
  | [], _, c, hc => by simp at hc
  | c :: r, h, d, hd => by
    by_cases ht : trimRightP p r = []
    · have hall := trimRightP_nil_all p r ht
      by_cases hc : p c = true
      · rcases List.mem_cons.mp hd with e | e
        · exact e ▸ hc
        · exact hall d e
      · exfalso
        simp only [trimRightP, ht] at h
        simp [hc] at h
    · exfalso
      simp only [trimRightP] at h
      rw [if_neg (by simpa [List.isEmpty_iff] using ht)] at h
      simp at h
  termination_by l => l

theorem dropWhileP_nil_all (p : Char → Bool) :
    ∀ l : List Char, (∀ c ∈ l, p c = true) → l.dropWhile p = []
  | [], _ => rfl
  | c :: r, h => by
    rw [List.dropWhile_cons_of_pos (h c (List.mem_cons_self c r))]
    exact dropWhileP_nil_all p r (fun d hd => h d (List.mem_cons_of_mem c hd))

theorem trimRightP_idem (p : Char → Bool) :
    ∀ l : List Char, trimRightP p (trimRightP p l) = trimRightP p l
  | [] => rfl
  | c :: r => by
    by_cases ht : trimRightP p r = []
    · by_cases hc : p c = true
      · have h1 : trimRightP p (c :: r) = [] := by
          simp only [trimRightP, ht]; simp [hc]
        rw [h1]; rfl
      · have h1 : trimRightP p (c :: r) = [c] := by
          simp only [trimRightP, ht]; simp [hc]
        rw [h1]
        simp [trimRightP, hc]
    · have ih := trimRightP_idem p r
      have h1 : trimRightP p (c :: r) = c :: trimRightP p r := by
        simp only [trimRightP]
        rw [if_neg (by simpa [List.isEmpty_iff] using ht)]
      rw [h1]
      simp only [trimRightP, ih]
      rw [if_neg (by simpa [List.isEmpty_iff] using ht)]

theorem trimRightP_dropWhile_comm (p : Char → Bool) :
    ∀ l : List Char, trimRightP p (l.dropWhile p) = (trimRightP p l).dropWhile p
  | [] => rfl
  | c :: r => by
    by_cases hc : p c = true
    · rw [List.dropWhile_cons_of_pos hc]
      by_cases ht : trimRightP p r = []
      · have : trimRightP p (c :: r) = [] := by
          simp only [trimRightP, ht]; simp [hc]
        rw [this, trimRightP_dropWhile_comm p r, ht]
      · have : trimRightP p (c :: r) = c :: trimRightP p r := by
          simp only [trimRightP]
          rw [if_neg (by simpa [List.isEmpty_iff] using ht)]
        rw [this, List.dropWhile_cons_of_pos hc, trimRightP_dropWhile_comm p r]
    · rw [List.dropWhile_cons_of_neg (by simpa using hc)]
      by_cases ht : trimRightP p r = []
      · have h1 : trimRightP p (c :: r) = [c] := by
          simp only [trimRightP, ht]; simp [hc]
        rw [h1, List.dropWhile_cons_of_neg (by simpa using hc)]
      · have h1 : trimRightP p (c :: r) = c :: trimRightP p r := by
          simp only [trimRightP]
          rw [if_neg (by simpa [List.isEmpty_iff] using ht)]
        rw [h1, List.dropWhile_cons_of_neg (by simpa using hc)]

theorem jsTrim_idem (l : List Char) : jsTrim (jsTrim l) = jsTrim l := by
  unfold jsTrim
  rw [trimRightP_dropWhile_comm, trimRightP_idem, dropWhileP_idem]

theorem mem_jsTrim {a : Char} (l : List Char) (h : a ∈ jsTrim l) : a ∈ l :=
  mem_trimRightP isJsSpace l (mem_dropWhileP isJsSpace _ h)

theorem dropWhile_hm (l : List Char) (h : hasMatchGo none l = false) :
    hasMatchGo none (l.dropWhile isJsSpace) = false := by
  have hsplit := List.takeWhile_append_dropWhile (p := isJsSpace) (l := l)
  have hnolt : '<' ∉ l.takeWhile isJsSpace := by
    intro hmem
    have := List.mem_takeWhile_imp hmem
    exact absurd this (by decide)
  rw [← hsplit, hm_skip_no_lt _ _ hnolt] at h
  exact h

theorem trimRight_hm (l : List Char) (h : hasMatchGo none l = false) :
    hasMatchGo none (trimRightP isJsSpace l) = false := by
  obtain ⟨b, hb, _⟩ := trimRightP_prefix isJsSpace l
  rw [hb] at h
  exact hm_prefix _ b none h

theorem jsTrim_hm (l : List Char) (h : hasMatchGo none l = false) :
    hasMatchGo none (jsTrim l) = false :=
  dropWhile_hm _ (trimRight_hm l h)

end DocFx

namespace DocFx

/-! ## Whitespace normal form -/

theorem normWs_tail {c : Char} {r : List Char} (h : normWs (c :: r) = true) :
    normWs r = true := by
  cases r with
  | nil => rfl
  | cons d r2 =>
    have := (Bool.and_eq_true _ _).mp h
    exact this.2

theorem normWs_head_space {c : Char} {r : List Char} (h : normWs (c :: r) = true)
    (hs : isJsSpace c = true) : c = ' ' := by
  cases r with
  | nil =>
    simp only [normWs, hs, Bool.not_true, Bool.false_or] at h
    exact eq_of_beq h
  | cons d r2 =>
    have h1 := ((Bool.and_eq_true _ _).mp h).1
    rw [if_pos hs] at h1
    exact eq_of_beq ((Bool.and_eq_true _ _).mp h1).1

theorem normWs_head2 {c : Char} {r : List Char} (h : normWs (c :: r) = true)
    (hs : isJsSpace c = true) : headNotWs r = true := by
  cases r with
  | nil => rfl
  | cons d r2 =>
    have h1 := ((Bool.and_eq_true _ _).mp h).1
    rw [if_pos hs] at h1
    exact ((Bool.and_eq_true _ _).mp h1).2

theorem normWs_cons_space {x : List Char} (hh : headNotWs x = true) (hn : normWs x = true) :
    normWs (' ' :: x) = true := by
  cases x with
  | nil => rfl
  | cons d r =>
    have hd : isJsSpace d = false := by
      by_cases hjs : isJsSpace d = true
      · exfalso; simp [headNotWs, hjs] at hh
      · simpa using hjs
    simp only [normWs]
    rw [if_pos (by decide : isJsSpace ' ' = true)]
    simp [hd, hn]

theorem normWs_cons_nonws {c : Char} {x : List Char} (hs : isJsSpace c = false)
    (hn : normWs x = true) : normWs (c :: x) = true := by
  cases x with
  | nil => simp [normWs, hs]
  | cons d r =>
    simp only [normWs]
    rw [if_neg (by simp [hs])]
    simp [hn]

theorem collapse_norm :
    ∀ l : List Char,
      (normWs (collapseGo isJsSpace ' ' true l) = true ∧
        headNotWs (collapseGo isJsSpace ' ' true l) = true) ∧
      normWs (collapseGo isJsSpace ' ' false l) = true
  | [] => ⟨⟨rfl, rfl⟩, rfl⟩
  | c :: r => by
    obtain ⟨⟨iht, ihh⟩, ihf⟩ := collapse_norm r
    by_cases hs : isJsSpace c = true
    · constructor
      · rw [collapseGo_pos _ _ hs, if_pos rfl]
        exact ⟨iht, ihh⟩
      · rw [collapseGo_pos _ _ hs, if_neg (by simp)]
        exact normWs_cons_space ihh iht
    · have hsf : isJsSpace c = false := by simpa using hs
      constructor
      · rw [collapseGo_neg _ _ hsf]
        exact ⟨normWs_cons_nonws hsf ihf, by simp [headNotWs, hsf]⟩
      · rw [collapseGo_neg _ _ hsf]
        exact normWs_cons_nonws hsf ihf

theorem collapse_eq_self :
    ∀ l : List Char,
      (normWs l = true → headNotWs l = true → collapseGo isJsSpace ' ' true l = l) ∧
      (normWs l = true → collapseGo isJsSpace ' ' false l = l)
  | [] => ⟨fun _ _ => rfl, fun _ => rfl⟩
  | c :: r => by
    obtain ⟨ih1, ih2⟩ := collapse_eq_self r
    constructor
    · intro hn hh
      have hsf : isJsSpace c = false := by
        have : (!isJsSpace c) = true := by simpa [headNotWs] using hh
        simpa using this
      rw [collapseGo_neg _ _ hsf, ih2 (normWs_tail hn)]
    · intro hn
      by_cases hs : isJsSpace c = true
      · have hc : c = ' ' := normWs_head_space hn hs
        have hh : headNotWs r = true := normWs_head2 hn hs
        rw [collapseGo_pos _ _ hs, if_neg (by simp), ih1 (normWs_tail hn) hh, hc]
      · have hsf : isJsSpace c = false := by simpa using hs
        rw [collapseGo_neg _ _ hsf, ih2 (normWs_tail hn)]

theorem normWs_append_left :
    ∀ a b : List Char, normWs (a ++ b) = true → normWs a = true
  | [], _, _ => rfl
  | [c], b, h => by
    cases b with
    | nil => simpa using h
    | cons d b2 =>
      rw [List.singleton_append] at h
      by_cases hs : isJsSpace c = true
      · have hc := normWs_head_space h hs
        simp [normWs, hc]
      · simp [normWs, hs]
  | c :: c2 :: a, b, h => by
    rw [List.cons_append, List.cons_append] at h
    have h1 := ((Bool.and_eq_true _ _).mp h).1
    have h2 := ((Bool.and_eq_true _ _).mp h).2
    rw [← List.cons_append] at h2
    have ih := normWs_append_left (c2 :: a) b h2
    simp only [normWs]
    rw [Bool.and_eq_true]
    exact ⟨h1, ih⟩

theorem normWs_dropWhile (p : Char → Bool) :
    ∀ l : List Char, normWs l = true → normWs (l.dropWhile p) = true
  | [], h => h
  | c :: r, h => by
    by_cases hc : p c = true
    · rw [List.dropWhile_cons_of_pos hc]
      exact normWs_dropWhile p r (normWs_tail h)
    · rw [List.dropWhile_cons_of_neg hc]
      exact h

theorem normWs_trimRight (p : Char → Bool) (l : List Char) (h : normWs l = true) :
    normWs (trimRightP p l) = true := by
  obtain ⟨b, hb, _⟩ := trimRightP_prefix p l
  rw [hb] at h
  exact normWs_append_left _ b h

theorem normWs_jsTrim (l : List Char) (h : normWs l = true) :
    normWs (jsTrim l) = true :=
  normWs_dropWhile _ _ (normWs_trimRight _ l h)

theorem normWs_mem_ws :
    ∀ l : List Char, normWs l = true → ∀ c ∈ l, isJsSpace c = true → c = ' '
  | [], _, c, hc, _ => by simp at hc
  | d :: r, h, c, hc, hs => by
    rcases List.mem_cons.mp hc with e | e
    · exact e ▸ normWs_head_space h (e ▸ hs)
    · exact normWs_mem_ws r (normWs_tail h) c e hs

end DocFx

namespace DocFx

/-! ## Character absence through the pipeline stages -/

theorem nm_repChar {x : Char} {f : Char → List Char} (hf : ∀ c, x ∈ f c → c = x)
    {y : List Char} (hy : x ∉ y) : x ∉ repChar f y := by
  intro hmem
  obtain ⟨c, hc, ha⟩ := mem_repChar f y hmem
  exact hy ((hf c ha) ▸ hc)

theorem killed_repChar {x : Char} {f : Char → List Char} (hf : ∀ c, x ∉ f c)
    (y : List Char) : x ∉ repChar f y := by
  intro hmem
  obtain ⟨c, _, ha⟩ := mem_repChar f y hmem
  exact hf c ha

theorem nm_crlf {x e : Char} (hx : x ≠ e) {y : List Char} (hy : x ∉ y) :
    x ∉ crlfRepl e y := by
  intro hmem
  rcases mem_crlfRepl y hmem with h | h
  · exact hy h
  · exact hx h

theorem nm_collapse {x e : Char} (p : Char → Bool) (hx : x ≠ e) {b : Bool} {y : List Char}
    (hy : x ∉ y) : x ∉ collapseGo p e b y := by
  intro hmem
  rcases mem_collapseGo p b y hmem with h | h
  · exact hy h
  · exact hx h

theorem nm_jsTrim {x : Char} {y : List Char} (hy : x ∉ y) : x ∉ jsTrim y :=
  fun hmem => hy (mem_jsTrim y hmem)

/-- Membership in the output of the angle scanner, for an `emit` whose
output characters come from the buffer or a fixed list `extra`. -/
theorem mem_angleGo (emit : List Char → List Char) (extra : List Char)
    (hemit : ∀ buf x, x ∈ emit buf → x ∈ buf ∨ x ∈ extra) :
    ∀ l : List Char,
      (∀ a, a ∈ angleGo emit none l → a ∈ l ∨ a ∈ extra) ∧
      (∀ buf a, a ∈ angleGo emit (some buf) l → a = '<' ∨ a ∈ buf ∨ a ∈ l ∨ a ∈ extra)
  | [] => by
    constructor
    · intro a ha; simp [angleGo] at ha
    · intro buf a ha
      rcases List.mem_cons.mp (by simpa [angleGo] using ha) with e | e
      · exact Or.inl e
      · exact Or.inr (Or.inl e)
  | c :: r => by
    obtain ⟨ih1, ih2⟩ := mem_angleGo emit extra hemit r
    constructor
    · intro a ha
      by_cases hc : c = '<'
      · subst hc
        rw [angleGo_none_lt] at ha
        rcases ih2 [] a ha with e | e | e | e
        · exact Or.inl (e ▸ List.mem_cons_self _ _)
        · simp at e
        · exact Or.inl (List.mem_cons_of_mem _ e)
        · exact Or.inr e
      · rw [angleGo_none_cons emit hc] at ha
        rcases List.mem_cons.mp ha with e | e
        · exact Or.inl (e ▸ List.mem_cons_self _ _)
        · rcases ih1 a e with h2 | h2
          · exact Or.inl (List.mem_cons_of_mem _ h2)
          · exact Or.inr h2
    · intro buf a ha
      by_cases hc : c = '>'
      · subst hc
        by_cases hb : buf = []
        · subst hb
          rw [angleGo_some_gt_nil] at ha
          rcases List.mem_cons.mp ha with e | e
          · exact Or.inl e
          · rcases List.mem_cons.mp e with e2 | e2
            · exact Or.inr (Or.inr (Or.inl (e2 ▸ List.mem_cons_self _ _)))
            · rcases ih1 a e2 with h2 | h2
              · exact Or.inr (Or.inr (Or.inl (List.mem_cons_of_mem _ h2)))
              · exact Or.inr (Or.inr (Or.inr h2))
        · rw [angleGo_some_gt emit hb] at ha
          rcases List.mem_append.mp ha with e | e
          · rcases hemit buf a e with h2 | h2
            · exact Or.inr (Or.inl h2)
            · exact Or.inr (Or.inr (Or.inr h2))
          · rcases ih1 a e with h2 | h2
            · exact Or.inr (Or.inr (Or.inl (List.mem_cons_of_mem _ h2)))
            · exact Or.inr (Or.inr (Or.inr h2))
      · rw [angleGo_some_cons emit hc] at ha
        rcases ih2 (buf ++ [c]) a ha with e | e | e | e
        · exact Or.inl e
        · rcases List.mem_append.mp e with e2 | e2
          · exact Or.inr (Or.inl e2)
          · exact Or.inr (Or.inr (Or.inl ((List.mem_singleton.mp e2) ▸ List.mem_cons_self _ _)))
        · exact Or.inr (Or.inr (Or.inl (List.mem_cons_of_mem _ e)))
        · exact Or.inr (Or.inr (Or.inr e))

theorem mem_stripAngle {a : Char} {l : List Char} (h : a ∈ stripAngle l) : a ∈ l := by
  have := (mem_angleGo dropEmit [] (fun buf x hx => by simp [dropEmit] at hx) l).1 a h
  rcases this with h2 | h2
  · exact h2
  · simp at h2

theorem mem_mdxAngle {a : Char} {l : List Char} (h : a ∈ mdxAngle l) :
    a ∈ l ∨ a ∈ "&lt;".data ++ "&gt;".data := by
  refine (mem_angleGo mdxEmit ("&lt;".data ++ "&gt;".data) ?_ l).1 a h
  intro buf x hx
  rcases List.mem_append.mp hx with h2 | h2
  · rcases List.mem_append.mp h2 with h3 | h3
    · exact Or.inr (List.mem_append.mpr (Or.inl h3))
    · exact Or.inl h3
  · exact Or.inr (List.mem_append.mpr (Or.inr h2))

end DocFx

namespace DocFx

/-! ## Facts about the single-character replacement tables -/

theorem ifRep_h3 (P : Char → Prop) [DecidablePred P] (ent : List Char)
    (hlt : '<' ∉ ent) (hgt : '>' ∉ ent) :
    ∀ c, c ≠ '<' → c ≠ '>' →
      '<' ∉ (if P c then ent else [c]) ∧ '>' ∉ (if P c then ent else [c]) := by
  intro c h1 h2
  by_cases hP : P c
  · rw [if_pos hP]; exact ⟨hlt, hgt⟩
  · rw [if_neg hP]
    exact ⟨fun hm => h1 (List.mem_singleton.mp hm).symm,
           fun hm => h2 (List.mem_singleton.mp hm).symm⟩

theorem ifRep_mem (P : Char → Prop) [DecidablePred P] (ent : List Char) {x : Char}
    (hx : x ∉ ent) : ∀ c, x ∈ (if P c then ent else [c]) → c = x := by
  intro c hc
  by_cases hP : P c
  · rw [if_pos hP] at hc; exact absurd hc hx
  · rw [if_neg hP] at hc; exact (List.mem_singleton.mp hc).symm

theorem ifRep_kill (P : Char → Prop) [DecidablePred P] (ent : List Char) {x : Char}
    (hx : x ∉ ent) (hPx : P x) : ∀ c, x ∉ (if P c then ent else [c]) := by
  intro c hm
  by_cases hP : P c
  · rw [if_pos hP] at hm; exact hx hm
  · rw [if_neg hP] at hm; exact hP ((List.mem_singleton.mp hm) ▸ hPx)

/-! ## Shape of the sanitizer outputs -/

theorem jsx_normWs (l : List Char) : normWs (sanitizeForJsxData l) = true := by
  unfold sanitizeForJsxData wsCollapse
  exact normWs_jsTrim _ (collapse_norm _).2

theorem mdx_normWs (l : List Char) : normWs (sanitizeForMdxData l) = true := by
  unfold sanitizeForMdxData wsCollapse
  exact normWs_jsTrim _ (collapse_norm _).2

theorem normWs_no_char {x : Char} (hx1 : isJsSpace x = true) (hx2 : x ≠ ' ')
    {u : List Char} (h : normWs u = true) : x ∉ u :=
  fun hm => hx2 (normWs_mem_ws u h x hm hx1)

theorem jsx_no_quote (l : List Char) : quoteC ∉ sanitizeForJsxData l := by
  unfold sanitizeForJsxData wsCollapse
  apply nm_jsTrim
  apply nm_collapse _ (by decide)
  apply nm_repChar (ifRep_mem (fun c => c = '\n') [' '] (by decide))
  apply nm_crlf (by decide)
  apply nm_repChar (ifRep_mem (fun c => c = lbraceC ∨ c = rbraceC) [] (by decide))
  apply nm_repChar (ifRep_mem (fun c => c = aposC) "&#39;".data (by decide))
  exact killed_repChar (ifRep_kill (fun c => c = quoteC) "&quot;".data (by decide) rfl) _

theorem jsx_no_apos (l : List Char) : aposC ∉ sanitizeForJsxData l := by
  unfold sanitizeForJsxData wsCollapse
  apply nm_jsTrim
  apply nm_collapse _ (by decide)
  apply nm_repChar (ifRep_mem (fun c => c = '\n') [' '] (by decide))
  apply nm_crlf (by decide)
  apply nm_repChar (ifRep_mem (fun c => c = lbraceC ∨ c = rbraceC) [] (by decide))
  exact killed_repChar (ifRep_kill (fun c => c = aposC) "&#39;".data (by decide) rfl) _

theorem jsx_no_bslash (l : List Char) : bslashC ∉ sanitizeForJsxData l := by
  unfold sanitizeForJsxData wsCollapse
  apply nm_jsTrim
  apply nm_collapse _ (by decide)
  apply nm_repChar (ifRep_mem (fun c => c = '\n') [' '] (by decide))
  apply nm_crlf (by decide)
  apply nm_repChar (ifRep_mem (fun c => c = lbraceC ∨ c = rbraceC) [] (by decide))
  apply nm_repChar (ifRep_mem (fun c => c = aposC) "&#39;".data (by decide))
  apply nm_repChar (ifRep_mem (fun c => c = quoteC) "&quot;".data (by decide))
  exact killed_repChar (ifRep_kill (fun c => c = bslashC) [] (by decide) rfl) _

theorem jsx_no_lbrace (l : List Char) : lbraceC ∉ sanitizeForJsxData l := by
  unfold sanitizeForJsxData wsCollapse
  apply nm_jsTrim
  apply nm_collapse _ (by decide)
  apply nm_repChar (ifRep_mem (fun c => c = '\n') [' '] (by decide))
  apply nm_crlf (by decide)
  exact killed_repChar
    (ifRep_kill (fun c => c = lbraceC ∨ c = rbraceC) [] (by decide) (Or.inl rfl)) _

theorem jsx_no_rbrace (l : List Char) : rbraceC ∉ sanitizeForJsxData l := by
  unfold sanitizeForJsxData wsCollapse
  apply nm_jsTrim
  apply nm_collapse _ (by decide)
  apply nm_repChar (ifRep_mem (fun c => c = '\n') [' '] (by decide))
  apply nm_crlf (by decide)
  exact killed_repChar
    (ifRep_kill (fun c => c = lbraceC ∨ c = rbraceC) [] (by decide) (Or.inr rfl)) _

theorem mdx_no_lbrace (l : List Char) : lbraceC ∉ sanitizeForMdxData l := by
  unfold sanitizeForMdxData wsCollapse
  apply nm_jsTrim
  apply nm_collapse _ (by decide)
  apply nm_repChar (ifRep_mem (fun c => c = '\n') [' '] (by decide))
  apply nm_crlf (by decide)
  apply nm_repChar (ifRep_mem (fun c => c = rbraceC) "&#125;".data (by decide))
  exact killed_repChar (ifRep_kill (fun c => c = lbraceC) "&#123;".data (by decide) rfl) _

theorem mdx_no_rbrace (l : List Char) : rbraceC ∉ sanitizeForMdxData l := by
  unfold sanitizeForMdxData wsCollapse
  apply nm_jsTrim
  apply nm_collapse _ (by decide)
  apply nm_repChar (ifRep_mem (fun c => c = '\n') [' '] (by decide))
  apply nm_crlf (by decide)
  exact killed_repChar (ifRep_kill (fun c => c = rbraceC) "&#125;".data (by decide) rfl) _

theorem jsx_no_match (l : List Char) : hasMatchB (sanitizeForJsxData l) = false := by
  unfold sanitizeForJsxData wsCollapse
  have h0 : hasMatchGo none (stripAngle (repChar fAmp l)) = false := stripAngle_no_match _
  have h1 := (repChar_hm fBslash (by decide) (by decide)
    (ifRep_h3 (fun c => c = bslashC) [] (by decide) (by decide)) _).1 h0
  have h2 := (repChar_hm fQuot (by decide) (by decide)
    (ifRep_h3 (fun c => c = quoteC) "&quot;".data (by decide) (by decide)) _).1 h1
  have h3 := (repChar_hm fApos (by decide) (by decide)
    (ifRep_h3 (fun c => c = aposC) "&#39;".data (by decide) (by decide)) _).1 h2
  have h4 := (repChar_hm fBraceDrop (by decide) (by decide)
    (ifRep_h3 (fun c => c = lbraceC ∨ c = rbraceC) [] (by decide) (by decide)) _).1 h3
  have h5 := (crlf_hm _).1 h4
  have h6 := (repChar_hm fNl (by decide) (by decide)
    (ifRep_h3 (fun c => c = '\n') [' '] (by decide) (by decide)) _).1 h5
  have h7 := (collapse_hm _ false).1 h6
  exact jsTrim_hm _ h7

theorem mdx_hm_cond (l : List Char) (h : hasMatchB (mdxAngle l) = false) :
    hasMatchB (sanitizeForMdxData l) = false := by
  unfold sanitizeForMdxData wsCollapse
  have h1 := (repChar_hm fLbrace (by decide) (by decide)
    (ifRep_h3 (fun c => c = lbraceC) "&#123;".data (by decide) (by decide)) _).1 h
  have h2 := (repChar_hm fRbrace (by decide) (by decide)
    (ifRep_h3 (fun c => c = rbraceC) "&#125;".data (by decide) (by decide)) _).1 h1
  have h3 := (crlf_hm _).1 h2
  have h4 := (repChar_hm fNl (by decide) (by decide)
    (ifRep_h3 (fun c => c = '\n') [' '] (by decide) (by decide)) _).1 h3
  have h5 := (collapse_hm _ false).1 h4
  exact jsTrim_hm _ h5

end DocFx

namespace DocFx

/-! ## Conditional idempotence of the sanitizers -/

theorem crlf_eq_self {e : Char} : ∀ y : List Char, '\r' ∉ y → crlfRepl e y = y
  | [], _ => rfl
  | [_], _ => rfl
  | c :: d :: r, h => by
    have hc : c ≠ '\r' := fun e2 => h (e2 ▸ List.mem_cons_self _ _)
    rw [crlfRepl_cons2 _ (fun hp => hc hp.1)]
    congr 1
    exact crlf_eq_self (d :: r) (fun hm => h (List.mem_cons_of_mem _ hm))

theorem jsxData_idem (l : List Char) (h : '&' ∉ sanitizeForJsxData l) :
    sanitizeForJsxData (sanitizeForJsxData l) = sanitizeForJsxData l := by
  have hq := jsx_no_quote l
  have hap := jsx_no_apos l
  have hb := jsx_no_bslash l
  have hlb := jsx_no_lbrace l
  have hrb := jsx_no_rbrace l
  have hn := jsx_normWs l
  have hmm := jsx_no_match l
  have hcr : '\r' ∉ sanitizeForJsxData l := normWs_no_char (by decide) (by decide) hn
  have hnl : '\n' ∉ sanitizeForJsxData l := normWs_no_char (by decide) (by decide) hn
  have e1 : repChar fAmp (sanitizeForJsxData l) = sanitizeForJsxData l :=
    repChar_eq_self _ _ (fun c hc => by
      have hne : ¬(c = '&') := fun e => h (e ▸ hc)
      simp [fAmp, hne])
  have e2 : stripAngle (sanitizeForJsxData l) = sanitizeForJsxData l :=
    stripAngle_eq_self hmm
  have e3 : repChar fBslash (sanitizeForJsxData l) = sanitizeForJsxData l :=
    repChar_eq_self _ _ (fun c hc => by
      have hne : ¬(c = bslashC) := fun e => hb (e ▸ hc)
      simp [fBslash, hne])
  have e4 : repChar fQuot (sanitizeForJsxData l) = sanitizeForJsxData l :=
    repChar_eq_self _ _ (fun c hc => by
      have hne : ¬(c = quoteC) := fun e => hq (e ▸ hc)
      simp [fQuot, hne])
  have e5 : repChar fApos (sanitizeForJsxData l) = sanitizeForJsxData l :=
    repChar_eq_self _ _ (fun c hc => by
      have hne : ¬(c = aposC) := fun e => hap (e ▸ hc)
      simp [fApos, hne])
  have e6 : repChar fBraceDrop (sanitizeForJsxData l) = sanitizeForJsxData l :=
    repChar_eq_self _ _ (fun c hc => by
      have hne : ¬(c = lbraceC ∨ c = rbraceC) := fun e => by
        rcases e with e | e
        · exact hlb (e ▸ hc)
        · exact hrb (e ▸ hc)
      simp [fBraceDrop, hne])
  have e7 : crlfRepl ' ' (sanitizeForJsxData l) = sanitizeForJsxData l :=
    crlf_eq_self _ hcr
  have e8 : repChar fNl (sanitizeForJsxData l) = sanitizeForJsxData l :=
    repChar_eq_self _ _ (fun c hc => by
      have hne : ¬(c = '\n') := fun e => hnl (e ▸ hc)
      simp [fNl, hne])
  have e9 : wsCollapse (sanitizeForJsxData l) = sanitizeForJsxData l :=
    (collapse_eq_self _).2 hn
  have e10 : jsTrim (sanitizeForJsxData l) = sanitizeForJsxData l := jsTrim_idem _
  show jsTrim (wsCollapse (repChar fNl (crlfRepl ' '
    (repChar fBraceDrop (repChar fApos (repChar fQuot
      (repChar fBslash (stripAngle (repChar fAmp (sanitizeForJsxData l)))))))))) =
    sanitizeForJsxData l
  rw [e1, e2, e3, e4, e5, e6, e7, e8, e9, e10]

theorem mdxData_idem (l : List Char) (h : hasMatchB (sanitizeForMdxData l) = false) :
    sanitizeForMdxData (sanitizeForMdxData l) = sanitizeForMdxData l := by
  have hlb := mdx_no_lbrace l
  have hrb := mdx_no_rbrace l
  have hn := mdx_normWs l
  have hcr : '\r' ∉ sanitizeForMdxData l := normWs_no_char (by decide) (by decide) hn
  have hnl : '\n' ∉ sanitizeForMdxData l := normWs_no_char (by decide) (by decide) hn
  have e1 : mdxAngle (sanitizeForMdxData l) = sanitizeForMdxData l := mdxAngle_eq_self h
  have e2 : repChar fLbrace (sanitizeForMdxData l) = sanitizeForMdxData l :=
    repChar_eq_self _ _ (fun c hc => by
      have hne : ¬(c = lbraceC) := fun e => hlb (e ▸ hc)
      simp [fLbrace, hne])
  have e3 : repChar fRbrace (sanitizeForMdxData l) = sanitizeForMdxData l :=
    repChar_eq_self _ _ (fun c hc => by
      have hne : ¬(c = rbraceC) := fun e => hrb (e ▸ hc)
      simp [fRbrace, hne])
  have e4 : crlfRepl ' ' (sanitizeForMdxData l) = sanitizeForMdxData l :=
    crlf_eq_self _ hcr
  have e5 : repChar fNl (sanitizeForMdxData l) = sanitizeForMdxData l :=
    repChar_eq_self _ _ (fun c hc => by
      have hne : ¬(c = '\n') := fun e => hnl (e ▸ hc)
      simp [fNl, hne])
  have e6 : wsCollapse (sanitizeForMdxData l) = sanitizeForMdxData l :=
    (collapse_eq_self _).2 hn
  have e7 : jsTrim (sanitizeForMdxData l) = sanitizeForMdxData l := jsTrim_idem _
  show jsTrim (wsCollapse (repChar fNl (crlfRepl ' '
    (repChar fRbrace (repChar fLbrace (mdxAngle (sanitizeForMdxData l))))))) =
    sanitizeForMdxData l
  rw [e1, e2, e3, e4, e5, e6, e7]

theorem sanitizeForJsx_idem_cond (s : String) (h : '&' ∉ (sanitizeForJsx s).data) :
    sanitizeForJsx (sanitizeForJsx s) = sanitizeForJsx s := by
  by_cases hs : s = ""
  · subst hs; rfl
  · set t := sanitizeForJsx s with htdef
    by_cases ht : t = ""
    · rw [ht]; simp [sanitizeForJsx]
    · have hdata : t.data = sanitizeForJsxData s.data := by
        rw [htdef]; simp [sanitizeForJsx, hs]
      show sanitizeForJsx t = t
      simp only [sanitizeForJsx]
      rw [if_neg ht, hdata, jsxData_idem s.data (hdata ▸ h)]
      rw [htdef]
      simp [sanitizeForJsx, hs]

theorem sanitizeForMdx_idem_cond (s : String)
    (h : hasMatchB (sanitizeForMdx s).data = false) :
    sanitizeForMdx (sanitizeForMdx s) = sanitizeForMdx s := by
  by_cases hs : s = ""
  · subst hs; rfl
  · set t := sanitizeForMdx s with htdef
    by_cases ht : t = ""
    · rw [ht]; simp [sanitizeForMdx]
    · have hdata : t.data = sanitizeForMdxData s.data := by
        rw [htdef]; simp [sanitizeForMdx, hs]
      show sanitizeForMdx t = t
      simp only [sanitizeForMdx]
      rw [if_neg ht, hdata, mdxData_idem s.data (hdata ▸ h)]
      rw [htdef]
      simp [sanitizeForMdx, hs]

end DocFx

namespace DocFx

/-! ## An unescaped angle pattern forces a scanner match -/

theorem hm_gt_run : ∀ (m b : List Char), '>' ∉ m →
    hasMatchGo (some true) (m ++ '>' :: b) = true
  | [], b, _ => by rw [List.nil_append, hm_some_gt]; simp
  | c :: m, b, h => by
    have hc : c ≠ '>' := fun e => h (e ▸ List.mem_cons_self _ _)
    have hm2 : '>' ∉ m := fun e => h (List.mem_cons_of_mem c e)
    rw [List.cons_append, hm_some_cons hc]
    exact hm_gt_run m b hm2

theorem hm_pattern :
    ∀ (a : List Char) (st : Option Bool) (m b : List Char), m ≠ [] → '>' ∉ m →
      hasMatchGo st (a ++ '<' :: (m ++ '>' :: b)) = true
  | [], st, m, b, hm1, hm2 => by
    rw [List.nil_append]
    cases st with
    | none =>
      rw [hm_none_lt]
      cases m with
      | nil => exact absurd rfl hm1
      | cons c m2 =>
        have hc : c ≠ '>' := fun e => hm2 (e ▸ List.mem_cons_self _ _)
        rw [List.cons_append, hm_some_cons hc]
        exact hm_gt_run m2 b (fun e => hm2 (List.mem_cons_of_mem c e))
    | some bb =>
      rw [hm_some_cons (by decide : ('<' : Char) ≠ '>')]
      exact hm_gt_run m b hm2
  | c :: a, st, m, b, hm1, hm2 => by
    rw [List.cons_append]
    cases st with
    | none =>
      by_cases hc : c = '<'
      · subst hc; rw [hm_none_lt]; exact hm_pattern a (some false) m b hm1 hm2
      · rw [hm_none_cons hc]; exact hm_pattern a none m b hm1 hm2
    | some bb =>
      by_cases hc : c = '>'
      · subst hc
        rw [hm_some_gt, hm_pattern a none m b hm1 hm2]
        simp
      · rw [hm_some_cons hc]; exact hm_pattern a (some true) m b hm1 hm2

theorem no_match_no_pattern {u : List Char} (h : hasMatchB u = false) :
    ¬ containsAngleSub u := by
  rintro ⟨a, m, b, he, hm1, hm2⟩
  rw [hasMatchB, he, hm_pattern a none m b hm1 hm2] at h
  exact Bool.true_eq_false ▸ h

/-! ## Grouping lemmas -/

theorem findGroup_cons_self (gk : String) (gl : List DocItem)
    (rest : List (String × List DocItem)) :
    findGroup ((gk, gl) :: rest) gk = some gl := by
  simp [findGroup]

theorem findGroup_cons_ne {gk kq : String} (h : gk ≠ kq) (gl : List DocItem)
    (rest : List (String × List DocItem)) :
    findGroup ((gk, gl) :: rest) kq = findGroup rest kq := by
  simp [findGroup, List.find?_cons, h]

theorem findGroup_push (gs : List (String × List DocItem)) (k : String) (it : DocItem)
    (kq : String) :
    (findGroup (pushGroup gs k it) kq).getD [] =
      if kq = k then (findGroup gs kq).getD [] ++ [it] else (findGroup gs kq).getD [] := by
  induction gs with
  | nil =>
    by_cases hk : kq = k
    · subst hk
      rw [if_pos rfl]
      show (findGroup [(kq, [it])] kq).getD [] = (findGroup [] kq).getD [] ++ [it]
      rw [findGroup_cons_self]
      simp [findGroup]
    · rw [if_neg hk]
      show (findGroup [(k, [it])] kq).getD [] = (findGroup [] kq).getD []
      rw [findGroup_cons_ne (fun e => hk e.symm)]
  | cons g rest ih =>
    obtain ⟨gk, gl⟩ := g
    by_cases hgk : gk = k
    · subst hgk
      have hpush : pushGroup ((gk, gl) :: rest) gk it = (gk, gl ++ [it]) :: rest := by
        simp [pushGroup]
      rw [hpush]
      by_cases hq : kq = gk
      · subst hq
        rw [if_pos rfl, findGroup_cons_self, findGroup_cons_self]
        simp
      · rw [if_neg hq, findGroup_cons_ne (fun e => hq e.symm),
          findGroup_cons_ne (fun e => hq e.symm)]
    · have hpush : pushGroup ((gk, gl) :: rest) k it = (gk, gl) :: pushGroup rest k it := by
        simp [pushGroup, hgk]
      rw [hpush]
      by_cases hq : kq = gk
      · subst hq
        rw [if_neg hgk, findGroup_cons_self, findGroup_cons_self]
      · rw [findGroup_cons_ne (fun e => hq e.symm), findGroup_cons_ne (fun e => hq e.symm), ih]

end DocFx

namespace DocFx

theorem groupChildrenGo_spec (data : DocCollection) :
    ∀ (cs : List String) (gs : List (String × List DocItem)) (k : String),
      (findGroup (groupChildrenGo data cs gs) k).getD [] =
        (findGroup gs k).getD [] ++
          (cs.filterMap (resolveChild data)).filter (fun it => kindOf it == k)
  | [], gs, k => by simp [groupChildrenGo]
  | c :: cs, gs, k => by
    cases hres : resolveChild data c with
    | none =>
      simp only [groupChildrenGo, hres]
      rw [groupChildrenGo_spec data cs gs k]
      simp [List.filterMap_cons, hres]
    | some it =>
      simp only [groupChildrenGo, hres]
      rw [groupChildrenGo_spec data cs (pushGroup gs (kindOf it) it) k, findGroup_push]
      by_cases hk : k = kindOf it
      · rw [if_pos hk]
        have hbeq : (kindOf it == k) = true := beq_iff_eq.mpr hk.symm
        simp [List.filterMap_cons, hres, List.filter_cons, hbeq]
      · rw [if_neg hk]
        have hbeq : (kindOf it == k) = false := by
          simp [beq_iff_eq]
          exact fun e => hk e.symm
        simp [List.filterMap_cons, hres, List.filter_cons, hbeq]

/-- Declarative description of `groupChildren`: the bucket of kind `k`
is exactly the resolved children of kind `k`, in original order. -/
theorem groupChildren_spec (cs : List String) (data : DocCollection) (k : String) :
    (findGroup (groupChildren cs data) k).getD [] =
      (cs.filterMap (resolveChild data)).filter (fun it => kindOf it == k) := by
  rw [groupChildren, groupChildrenGo_spec]
  simp [findGroup]

theorem groupChildren_unresolved :
    ∀ (cs : List String) (data : DocCollection),
      (∀ c ∈ cs, resolveChild data c = none) → groupChildren cs data = []
  | [], _, _ => rfl
  | c :: cs, data, h => by
    have hc := h c (List.mem_cons_self c cs)
    show groupChildrenGo data (c :: cs) [] = []
    simp only [groupChildrenGo, hc]
    exact groupChildren_unresolved cs data (fun d hd => h d (List.mem_cons_of_mem c hd))

/-! ## Driver lemmas -/

theorem runFiles_mono_deleted {x : String} :
    ∀ (l : List (String × YamlFile)) (st : RunState),
      x ∈ st.deleted → x ∈ (runFiles st l).deleted
  | [], _, h => h
  | f :: fs, st, h => by
    refine runFiles_mono_deleted fs (runStep st f) ?_
    unfold runStep
    split
    · exact h
    · cases hres : processYamlFileRes f.1 f.2 with
      | error e => simp [hres, h]
      | ok o =>
        cases o with
        | none => simp [hres, h]
        | some pr => simp [hres, List.mem_append, h]

theorem runFiles_mono_outputs {x : String × String} :
    ∀ (l : List (String × YamlFile)) (st : RunState),
      x ∈ st.outputs → x ∈ (runFiles st l).outputs
  | [], _, h => h
  | f :: fs, st, h => by
    refine runFiles_mono_outputs fs (runStep st f) ?_
    unfold runStep
    split
    · exact h
    · cases hres : processYamlFileRes f.1 f.2 with
      | error e => simp [hres, h]
      | ok o =>
        cases o with
        | none => simp [hres, h]
        | some pr => simp [hres, List.mem_append, h]

theorem runFiles_good_file :
    ∀ (l : List (String × YamlFile)) (st : RunState) (f : String) (d : DocCollection),
      (f, YamlFile.ok d) ∈ l → d.items ≠ [] → f ≠ "toc.yml" → f ≠ ".manifest" →
      f ∈ (runFiles st l).deleted ∧
      (jsReplaceFirst f ".yml" ".md",
        convertYamlToMdx d (jsReplaceFirst f ".yml" ".md")) ∈ (runFiles st l).outputs
  | [], _, _, _, hmem, _, _, _ => absurd hmem (List.not_mem_nil _)
  | g :: l, st, f, d, hmem, hitems, htoc, hman => by
    rcases List.mem_cons.mp hmem with he | he
    · subst he
      have hstep : runStep st (f, YamlFile.ok d) =
          { st with
            outputs := st.outputs ++ [(jsReplaceFirst f ".yml" ".md",
              convertYamlToMdx d (jsReplaceFirst f ".yml" ".md"))],
            deleted := st.deleted ++ [f],
            processed := st.processed + 1 } := by
        unfold runStep
        rw [if_neg (by simp [htoc, hman])]
        simp [processYamlFileRes, hitems]
      show f ∈ (runFiles (runStep st (f, YamlFile.ok d)) l).deleted ∧
        (jsReplaceFirst f ".yml" ".md",
          convertYamlToMdx d (jsReplaceFirst f ".yml" ".md")) ∈
          (runFiles (runStep st (f, YamlFile.ok d)) l).outputs
      rw [hstep]
      constructor
      · exact runFiles_mono_deleted l _ (by simp)
      · exact runFiles_mono_outputs l _ (by simp)
    · exact runFiles_good_file l (runStep st g) f d he hitems htoc hman

theorem runFiles_append :
    ∀ (a b : List (String × YamlFile)) (st : RunState),
      runFiles st (a ++ b) = runFiles (runFiles st a) b
  | [], _, _ => rfl
  | f :: a, b, st => by
    rw [List.cons_append]
    show runFiles (runStep st f) (a ++ b) = _
    rw [runFiles_append a b (runStep st f)]
    rfl

/-- Adding one to the skipped counter commutes with a processing step. -/
theorem runStep_skip_shift (st : RunState) (f : String × YamlFile) :
    runStep { st with skipped := st.skipped + 1 } f =
      { runStep st f with skipped := (runStep st f).skipped + 1 } := by
  unfold runStep
  split
  · rfl
  · cases hres : processYamlFileRes f.1 f.2 with
    | error e => simp [hres]
    | ok o =>
      cases o with
      | none => simp [hres]
      | some pr => simp [hres]

theorem runFiles_skip_shift :
    ∀ (l : List (String × YamlFile)) (st : RunState),
      runFiles { st with skipped := st.skipped + 1 } l =
        { runFiles st l with skipped := (runFiles st l).skipped + 1 }
  | [], _ => rfl
  | f :: l, st => by
    show runFiles (runStep { st with skipped := st.skipped + 1 } f) l = _
    rw [runStep_skip_shift st f, runFiles_skip_shift l (runStep st f)]
    rfl

theorem runStep_raises {f : String} (htoc : f ≠ "toc.yml") (hman : f ≠ ".manifest")
    (st : RunState) :
    runStep st (f, YamlFile.raises) = { st with skipped := st.skipped + 1 } := by
  unfold runStep
  rw [if_neg (by simp [htoc, hman])]
  rfl

end DocFx

namespace DocFx

/-! ## Refinement of the class/struct renderers against the spec text -/

theorem memberSection_eq_spec (gs : List (String × List DocItem)) (k h : String)
    (r : DocItem → String) : memberSection gs k h r = specSection gs k h r := by
  unfold memberSection specSection
  cases hfind : findGroup gs k with
  | none => simp
  | some l => simp

theorem generateClass_eq_spec (item : DocItem) (data : DocCollection) :
    generateClassComponent item data = specClassRender item data := by
  unfold generateClassComponent specClassRender
  by_cases h : item.children = []
  · rw [h]
    simp [specSection, groupChildren, groupChildrenGo, findGroup, String.join,
      String.append_assoc]
  · rw [if_pos h]
    simp [memberSection_eq_spec, String.append_assoc]

theorem generateStruct_eq_specAmended (item : DocItem) (data : DocCollection) :
    generateStructComponent item data = specStructRenderAmended item data := by
  unfold generateStructComponent specStructRenderAmended
  by_cases h : item.children = []
  · rw [h]
    simp [groupChildren, groupChildrenGo, String.join, String.append_assoc]
  · rw [if_pos h]

end DocFx

namespace DocFx

/-! # Claim theorems -/

/-- Claim C1, counterexample: neither sanitizer is idempotent as claimed.
Re-applying `sanitizeForJsx` to the output for `"&"` re-escapes the
ampersand (`"&amp;"` becomes `"&amp;amp;"`), and re-applying
`sanitizeForMdx` to the output for `"<<a>>"` re-escapes the residual
angle pattern (`"&lt;<a&gt;>"` becomes `"&lt;&lt;a&gt;&gt;"`). -/
theorem claim_C1_counterexample :
    sanitizeForJsx (sanitizeForJsx "&") ≠ sanitizeForJsx "&" ∧
    sanitizeForMdx (sanitizeForMdx "<<a>>") ≠ sanitizeForMdx "<<a>>" := by
  constructor
  · decide
  · decide

/-- Claim C1, amended: each sanitizer is idempotent on every input whose
sanitized output a second pass would leave alone — for `sanitizeForJsx`,
every input whose output contains no ampersand (an output ampersand is
re-escaped); for `sanitizeForMdx`, every input whose output contains no
residual `<[^>]+>` pattern (such a pattern, left only by nested or
unbalanced angle brackets, is re-escaped). -/
theorem claim_C1_amended (s t : String)
    (hj : '&' ∉ (sanitizeForJsx s).data)
    (hm : hasMatchB (sanitizeForMdx t).data = false) :
    sanitizeForJsx (sanitizeForJsx s) = sanitizeForJsx s ∧
    sanitizeForMdx (sanitizeForMdx t) = sanitizeForMdx t :=
  ⟨sanitizeForJsx_idem_cond s hj, sanitizeForMdx_idem_cond t hm⟩

/-- Claim C1, witness: the amended idempotence applied to the concrete
inputs `"Hello world"` and `"List<T> item"`. -/
theorem claim_C1_witness :
    sanitizeForJsx (sanitizeForJsx "Hello world") = sanitizeForJsx "Hello world" ∧
    sanitizeForMdx (sanitizeForMdx "List<T> item") = sanitizeForMdx "List<T> item" :=
  claim_C1_amended "Hello world" "List<T> item" (by decide) (by decide)

/-- Claim C2, counterexample: a file whose processing throws produces no
output at all — the run with the single file `broken.yml` (whose
processing raises) ends with an empty output list, an empty deletion
list, and the skipped counter at 1; no fallback placeholder page is
emitted (`createFallbackContent` is never invoked). -/
theorem claim_C2_counterexample :
    (processDocFxFiles fsOneBroken).final.outputs = [] ∧
    (processDocFxFiles fsOneBroken).final.deleted = [] ∧
    (processDocFxFiles fsOneBroken).final.skipped = 1 := by
  refine ⟨?_, ?_, ?_⟩ <;> decide

/-- Claim C2, amended: a file whose processing fails is caught locally —
the skipped counter is incremented by exactly one, no output is emitted
and no source file is deleted for it (no fallback page either), and the
rest of the batch is processed exactly as if the failing file were
absent. -/
theorem claim_C2_amended (pre suf : List (String × YamlFile)) (f : String)
    (hyml : strEndsWith f ".yml" = true) (htoc : f ≠ "toc.yml") (hman : f ≠ ".manifest") :
    (processDocFxFiles ⟨true, pre ++ (f, YamlFile.raises) :: suf⟩).final =
      { (processDocFxFiles ⟨true, pre ++ suf⟩).final with
        skipped := (processDocFxFiles ⟨true, pre ++ suf⟩).final.skipped + 1 } := by
  have hrun : ∀ files : List (String × YamlFile),
      processDocFxFiles ⟨true, files⟩ =
        { exitCode := 0, log := [],
          final := runFiles initState (files.filter (fun g => strEndsWith g.1 ".yml")) } :=
    fun _ => rfl
  have hfil : (pre ++ (f, YamlFile.raises) :: suf).filter (fun g => strEndsWith g.1 ".yml") =
      pre.filter (fun g => strEndsWith g.1 ".yml") ++
        (f, YamlFile.raises) :: suf.filter (fun g => strEndsWith g.1 ".yml") := by
    rw [List.filter_append, List.filter_cons]
    simp [hyml]
  have hfil2 : (pre ++ suf).filter (fun g => strEndsWith g.1 ".yml") =
      pre.filter (fun g => strEndsWith g.1 ".yml") ++
        suf.filter (fun g => strEndsWith g.1 ".yml") := List.filter_append _ _
  rw [hrun, hrun, hfil, hfil2, runFiles_append, runFiles_append]
  show runFiles (runStep _ (f, YamlFile.raises)) _ = _
  rw [runStep_raises htoc hman, runFiles_skip_shift]

/-- Claim C2, witness: the amended statement at a batch of one good file
followed by one failing file. -/
theorem claim_C2_witness :
    (processDocFxFiles ⟨true, [("t.yml", YamlFile.ok docOk)] ++
        ("broken.yml", YamlFile.raises) :: []⟩).final =
      { (processDocFxFiles ⟨true, [("t.yml", YamlFile.ok docOk)] ++ []⟩).final with
        skipped := (processDocFxFiles
          ⟨true, [("t.yml", YamlFile.ok docOk)] ++ []⟩).final.skipped + 1 } :=
  claim_C2_amended [("t.yml", YamlFile.ok docOk)] [] "broken.yml"
    (by decide) (by decide) (by decide)

/-- Claim C3, counterexample: when the YAML source directory is missing
the run terminates with exit status 0 (not a non-zero status as the
claim states), after logging the diagnostic and producing no output. -/
theorem claim_C3_counterexample :
    (processDocFxFiles fsMissing).exitCode = 0 ∧
    (processDocFxFiles fsMissing).final.outputs = [] ∧
    (processDocFxFiles fsMissing).log =
      ["No API docs directory found. Skipping processing."] := by
  refine ⟨?_, ?_, ?_⟩ <;> decide

/-- Claim C3, amended: if the YAML source directory is missing, the run
logs "No API docs directory found. Skipping processing." and returns
normally with exit status 0, producing no output files and touching
nothing (only the shell scripts abort with a non-zero status). -/
theorem claim_C3_amended (files : List (String × YamlFile)) :
    processDocFxFiles ⟨false, files⟩ =
      { exitCode := 0,
        log := ["No API docs directory found. Skipping processing."],
        final := initState } := rfl

/-- Claim C4, counterexample: a Property item with no `syntax` field but
with the item-level field `type = "Property"` renders with
`type="Property"`, not with the literal fallback `"object"`. -/
theorem claim_C4_counterexample :
    propNoSyntaxItem.syn = none ∧
    generatePropertyComponent propNoSyntaxItem =
      "<ApiProperty name=\"X\" type=\"Property\" />\n\n" ∧
    strContains (generatePropertyComponent propNoSyntaxItem) "type=\"object\"" = false := by
  refine ⟨rfl, ?_, ?_⟩ <;> decide

/-- Claim C4, amended: for every Property item with no `syntax` field the
resolved type is the item-level `type` field when that is present and
non-empty, and the literal fallback "object" only when it is absent or
empty; the renderer emits the single self-closing tag built from that
resolved type. -/
theorem claim_C4_amended (p : DocItem) (h : p.syn = none) :
    resolvedType p = jsOrD p.type "object" ∧
    (p.type = none → resolvedType p = "object") ∧
    generatePropertyComponent p =
      "<ApiProperty" ++
      (if sanitizeForJsxOpt p.name = "" then ""
       else " name=\"" ++ sanitizeForJsxOpt p.name ++ "\"") ++
      (if sanitizeForJsx (jsOrD p.type "object") = "" then ""
       else " type=\"" ++ sanitizeForJsx (jsOrD p.type "object") ++ "\"") ++
      buildAttribute "description" p.summary ++ " />\n\n" := by
  have h1 : resolvedType p = jsOrD p.type "object" := by
    unfold resolvedType
    rw [h]
    rfl
  refine ⟨h1, fun ht => by rw [h1, ht]; rfl, ?_⟩
  unfold generatePropertyComponent
  rw [h1]

/-- Claim C4, witness: the amended statement at a Property item with
neither `syntax` nor item-level `type`, whose resolved type is the
literal "object". -/
theorem claim_C4_witness :
    resolvedType propBareItem = jsOrD propBareItem.type "object" ∧
    (propBareItem.type = none → resolvedType propBareItem = "object") ∧
    generatePropertyComponent propBareItem =
      "<ApiProperty" ++
      (if sanitizeForJsxOpt propBareItem.name = "" then ""
       else " name=\"" ++ sanitizeForJsxOpt propBareItem.name ++ "\"") ++
      (if sanitizeForJsx (jsOrD propBareItem.type "object") = "" then ""
       else " type=\"" ++ sanitizeForJsx (jsOrD propBareItem.type "object") ++ "\"") ++
      buildAttribute "description" propBareItem.summary ++ " />\n\n" :=
  claim_C4_amended propBareItem rfl

end DocFx

namespace DocFx

/-- Claim C5: after a YAML file is successfully converted, its Markdown
output is written and the original `.yml` source file is deleted from
the source directory — at the end of the run the file is in the deleted
list and its `.md` conversion is among the outputs, so it is never both
present as `.yml` and as generated `.md`. -/
theorem claim_C5 (fs : FakeFS) (f : String) (d : DocCollection)
    (hdir : fs.dirExists = true) (hmem : (f, YamlFile.ok d) ∈ fs.files)
    (hyml : strEndsWith f ".yml" = true) (hitems : d.items ≠ [])
    (htoc : f ≠ "toc.yml") (hman : f ≠ ".manifest") :
    f ∈ (processDocFxFiles fs).final.deleted ∧
    (jsReplaceFirst f ".yml" ".md",
      convertYamlToMdx d (jsReplaceFirst f ".yml" ".md")) ∈
      (processDocFxFiles fs).final.outputs := by
  unfold processDocFxFiles
  rw [if_neg (by simp [hdir])]
  exact runFiles_good_file _ initState f d
    (List.mem_filter.mpr ⟨hmem, hyml⟩) hitems htoc hman

/-- Claim C5, witness: the statement at the one-file run `t.yml`. -/
theorem claim_C5_witness :
    "t.yml" ∈ (processDocFxFiles fsOneGood).final.deleted ∧
    (jsReplaceFirst "t.yml" ".yml" ".md",
      convertYamlToMdx docOk (jsReplaceFirst "t.yml" ".yml" ".md")) ∈
      (processDocFxFiles fsOneGood).final.outputs :=
  claim_C5 fsOneGood "t.yml" docOk rfl (by decide) (by decide) (by decide)
    (by decide) (by decide)

/-- Claim C6: the round-trip scenario — converting the collection with
primary item `{uid "T", name "Foo", type Class, namespace "NS", summary
"desc", children ["T.Bar"]}` and reference `{uid "T.Bar", name "Bar",
type Method}` produces a page whose frontmatter has id "t" and title
"Foo", and whose body contains an opening class tag with name "Foo" and
namespace "NS", a "## Methods" section, and a method tag named "Bar". -/
theorem claim_C6 :
    strContains (convertYamlToMdx collFoo "t.md") "id: \"t\"" = true ∧
    strContains (convertYamlToMdx collFoo "t.md") "title: \"Foo\"" = true ∧
    strContains (convertYamlToMdx collFoo "t.md")
      "<ApiClass name=\"Foo\" namespace=\"NS\"" = true ∧
    strContains (convertYamlToMdx collFoo "t.md") "## Methods" = true ∧
    strContains (convertYamlToMdx collFoo "t.md") "<ApiMethod name=\"Bar\"" = true := by
  refine ⟨?_, ?_, ?_, ?_, ?_⟩ <;> decide

/-- Claim C7, counterexample: a Struct item with the non-empty
inheritance chain `["Base"]` renders without any inheritance line — the
struct renderer never emits one, contrary to the claimed shared
class/struct contract. -/
theorem claim_C7_counterexample :
    structWithInheritance.inheritance ≠ [] ∧
    strContains (generateStructComponent structWithInheritance emptyColl)
      "**Inheritance:**" = false := by
  constructor
  · decide
  · decide

/-- Claim C7, amended: Class items follow the spec contract exactly
(opening tag with name/namespace/description, inheritance and implements
lines when non-empty, member sections in the fixed order Constructors,
Fields, Properties, Methods, Events — each only when non-empty — then
the remaining kinds as generic member lists, then the closing tag);
Struct items instead render the same opening/closing tag with a
"**Type:** Struct" line, no inheritance or implements lines, and member
sections in order of first appearance of each child kind (methods via
the method renderer, properties and fields via the property renderer,
all other kinds as generic member lists). -/
theorem claim_C7_amended :
    (∀ (item : DocItem) (data : DocCollection),
      generateClassComponent item data = specClassRender item data) ∧
    (∀ (item : DocItem) (data : DocCollection),
      generateStructComponent item data = specStructRenderAmended item data) :=
  ⟨generateClass_eq_spec, generateStruct_eq_specAmended⟩

/-- Claim C8: grouping resolves each child uid against `references`
first and `items` second (the definition of `resolveChild`), buckets the
resolved items by kind, and preserves within each bucket the original
`children` order: the bucket of kind `k` is exactly the ordered list of
resolved children of kind `k` — and in particular, for children
`[a, b, c]` all of kind "Method", the Method bucket is `[a, b, c]`. -/
theorem claim_C8 :
    (∀ (cs : List String) (data : DocCollection) (k : String),
      (findGroup (groupChildren cs data) k).getD [] =
        (cs.filterMap (resolveChild data)).filter (fun it => kindOf it == k)) ∧
    findGroup (groupChildren ["a", "b", "c"] collABC) "Method" =
      some [methodA, methodB, methodC] := by
  refine ⟨groupChildren_spec, ?_⟩
  decide

/-- Claim C9: child uids that resolve to nothing are silently dropped —
grouping any list of unresolvable uids yields the empty grouped map
(grouping is a total function, so no error is raised), and in particular
grouping `["missing-uid"]` against a collection lacking that uid yields
the empty map. -/
theorem claim_C9 :
    (∀ (cs : List String) (data : DocCollection),
      (∀ c ∈ cs, resolveChild data c = none) → groupChildren cs data = []) ∧
    groupChildren ["missing-uid"] collOther = [] := by
  refine ⟨groupChildren_unresolved, ?_⟩
  decide

/-- Claim C9, witness: the general part applied to `["missing-uid"]`
against the three-method collection, which also lacks that uid. -/
theorem claim_C9_witness : groupChildren ["missing-uid"] collABC = [] :=
  claim_C9.1 ["missing-uid"] collABC (by decide)

/-- Claim C10, counterexample: `sanitizeForMdx "<<a>>"` returns
`"&lt;<a&gt;>"`, which still contains the unescaped pattern
`'<' :: "a&gt;" :: '>'` — a `'<'`, one or more non-`'>'` characters,
then `'>'`. -/
theorem claim_C10_counterexample :
    containsAngleSub (sanitizeForMdx "<<a>>").data := by
  refine ⟨"&lt;".data, "a&gt;".data, [], ?_, ?_, ?_⟩
  · decide
  · decide
  · decide

/-- Claim C10, amended: for every input whose angle-escaping first pass
leaves no residual `<[^>]+>` pattern (this fails only for nested or
unbalanced angle brackets such as `"<<a>>"`), the final `sanitizeForMdx`
output contains no unescaped `<identifier>` pattern. -/
theorem claim_C10_amended (s : String)
    (h : hasMatchB (mdxAngle s.data) = false) :
    ¬ containsAngleSub (sanitizeForMdx s).data := by
  by_cases hs : s = ""
  · subst hs
    show ¬ containsAngleSub (sanitizeForMdx "").data
    exact no_match_no_pattern rfl
  · have hdata : (sanitizeForMdx s).data = sanitizeForMdxData s.data := by
      simp [sanitizeForMdx, hs]
    rw [hdata]
    exact no_match_no_pattern (mdx_hm_cond s.data h)

/-- Claim C10, witness: the amended statement at the concrete prose
input "while List<T> is pending {x}". -/
theorem claim_C10_witness :
    ¬ containsAngleSub (sanitizeForMdx "while List<T> is pending {x}").data :=
  claim_C10_amended "while List<T> is pending {x}" (by decide)

end DocFx
